import Mathlib

/-!
Verification of the Minesweeper board engine.

This file gives a shallow embedding of the game-logic core of the
repository: the generic `Grid` container with its eight-way neighbor
generator (`src/lib/grid.ts`), and the `MinesweeperBoard` engine
(`src/pixi/minesweeper-board.ts` logic layer): board generation with
Fisher-Yates shuffle, the closed/flagged/open tile state machine, the
recursive zero-neighbor flood fill, chord opening, win and loss
detection.

Modelling conventions:
* TypeScript numbers used as coordinates are modelled as `Int` (they can
  be negative); dimensions and counts are `Nat`, except the
  `tilesLeftToOpenToWin` counter which is `Int` so that the
  never-negative property is a real statement.
* A thrown exception (`Grid.get` out of bounds, a failed `assert`) is
  modelled with `Except`.  Board mutators return
  `Except (String × MinesweeperBoard) (MinesweeperBoard × List Point)`:
  an error carries the message together with the board as it stands at
  the moment of the throw (TypeScript mutates in place, so state changes
  made before a throw persist), and a success carries the updated board
  together with the list of points emitted on `tileChangedSignal`, in
  emission order.
* `Math.random()` in the shuffle is modelled by a `choice : Nat → Nat`
  oracle; the index drawn at loop counter `i`, namely
  `Math.floor(Math.random() * (i + 1))`, becomes `choice i % (i + 1)`,
  which ranges over exactly the same set `[0, i]`.
* The recursive flood fill `setTileOpen` is given explicit fuel to make
  the recursion structural; `setTileOpen` proper runs it with fuel
  `tileState.array.length + 1`, and the fuel-irrelevance theorem proved
  below shows the fuel bound is never hit.
-/

deriving instance DecidableEq for Except

/-- Represents a point on a 2D Grid (`Point` in `grid.ts`). -/
structure Point where
  x : Int
  y : Int
deriving DecidableEq, Repr

/-- A generator over eight-way neighbors of a point (`eightWayNeighbors`
in `grid.ts`): for `dx` in `-1..1`, for `dy` in `-1..1`, skipping
`(0, 0)`. -/
def eightWayNeighbors (point : Point) : List Point :=
  ([-1, 0, 1] : List Int).flatMap (fun dx =>
    ([-1, 0, 1] : List Int).flatMap (fun dy =>
      if dx = 0 ∧ dy = 0 then []
      else [{ x := point.x + dx, y := point.y + dy }]))

/-- All points `(x, y)` with `x < w` and `y < h`, `y` in the outer loop
and `x` in the inner loop (the loop body of `Grid.points`). -/
def rowMajorPoints (w h : Nat) : List Point :=
  (List.range h).flatMap (fun (y : Nat) =>
    (List.range w).map (fun (x : Nat) => { x := (x : Int), y := (y : Int) }))

/-- A 2D grid storing elements in row-major order (`Grid<T>` in
`grid.ts`).  `size` is the `width * height` field the constructor
computes. -/
structure Grid (α : Type) where
  width : Nat
  height : Nat
  size : Nat
  array : List α
deriving DecidableEq, Repr

namespace Grid

/-- Checks if a point is within the grid bounds (`Grid.isInBounds`). -/
def isInBounds (g : Grid α) (point : Point) : Bool :=
  point.x < (g.width : Int) ∧ point.y < (g.height : Int) ∧
    0 ≤ point.x ∧ 0 ≤ point.y

/-- Converts a point to its corresponding index in the internal array,
or `none` if out of bounds (`Grid.pointToArrayIndex`). -/
def pointToArrayIndex (g : Grid α) (point : Point) : Option Nat :=
  if g.isInBounds point then some (point.x + (g.width : Int) * point.y).toNat
  else none

/-- Gets the value at a point or `none` if out of bounds
(`Grid.getOrNull`). -/
def getOrNull (g : Grid α) (point : Point) : Option α :=
  match g.pointToArrayIndex point with
  | none => none
  | some index => g.array.get? index

/-- All points of the grid in row-major order (`Grid.points`). -/
def points (g : Grid α) : List Point :=
  rowMajorPoints g.width g.height

/-- Sets the value at a point; out-of-bounds writes cannot happen in the
source (every mutation happens through a reference previously fetched by
a successful bounds-checked `get`) and are modelled as no-ops. -/
def setAt (g : Grid α) (point : Point) (value : α) : Grid α :=
  match g.pointToArrayIndex point with
  | none => g
  | some index => { g with array := g.array.set index value }

end Grid

/-- Throws an error if the given condition is false (`assert` in
`utils/assert.ts`), at grid / constructor level where no board exists
yet. -/
def assertG (condition : Prop) [Decidable condition] (message : String) :
    Except String Unit :=
  if condition then Except.ok () else Except.error message

/-- Creates a grid with the given dimensions and data (the `Grid`
constructor, which asserts positive dimensions and that the array length
matches the grid size). -/
def mkGrid (width height : Nat) (array : List α) : Except String (Grid α) :=
  match assertG (0 < width) ("Width should be greater than zero") with
  | Except.error e => Except.error e
  | Except.ok _ =>
  match assertG (0 < height) ("Height should be greater than zero") with
  | Except.error e => Except.error e
  | Except.ok _ =>
  match assertG (array.length = width * height)
      ("Size of the array should be equal to the size of the grid") with
  | Except.error e => Except.error e
  | Except.ok _ =>
    Except.ok { width := width, height := height, size := width * height,
                array := array }

namespace Grid

/-- Bounds-checked access used inside `Grid.mapIndexed` (`Grid.get`
throws out of bounds; at grid level the error is just the message). -/
def getE (g : Grid α) (point : Point) : Except String α :=
  match g.getOrNull point with
  | some value => Except.ok value
  | none =>
      Except.error ("Tried to get a point on a grid that is out of bounds")

/-- Maps `transform` over a list of points of `g`, reading each value
with the throwing `get` (the `Array.from(this.points(), ...)` body of
`Grid.mapIndexed`). -/
def mapPoints (g : Grid α) (transform : Point → α → β) :
    List Point → Except String (List β)
  | [] => Except.ok []
  | p :: ps =>
    match g.getE p with
    | Except.error e => Except.error e
    | Except.ok value =>
      match mapPoints g transform ps with
      | Except.error e => Except.error e
      | Except.ok rest => Except.ok (transform p value :: rest)

/-- Maps the grid to a new grid by applying a transformation function to
each point and value (`Grid.mapIndexed`). -/
def mapIndexed (g : Grid α) (transform : Point → α → β) :
    Except String (Grid β) :=
  match g.mapPoints transform g.points with
  | Except.error e => Except.error e
  | Except.ok newArray => mkGrid g.width g.height newArray

end Grid

/-- Shuffles an array in place using the Fisher-Yates algorithm
(`shuffleArray` in `utils/shuffle-array.ts`): one swap of this loop,
`[array[i], array[j]] = [array[j], array[i]]`. -/
def swapAt (a : List α) (i j : Nat) : List α :=
  match a.get? i, a.get? j with
  | some vi, some vj => (a.set i vj).set j vi
  | _, _ => a

/-- The loop of `shuffleArray`, indexed by the loop counter `i` counting
down to (and excluding) `0`; `choice i % (i + 1)` models the random
draw `Math.floor(Math.random() * (i + 1))`, which lies in `[0, i]`. -/
def shuffleAux (choice : Nat → Nat) (a : List α) : Nat → List α
  | 0 => a
  | i + 1 => shuffleAux choice (swapAt a (i + 1) (choice (i + 1) % (i + 2))) i

/-- Shuffles an array using Fisher-Yates, the random draws given by the
`choice` oracle (`shuffleArray`). -/
def shuffleArray (choice : Nat → Nat) (a : List α) : List α :=
  shuffleAux choice a (a.length - 1)

/-- Represents data of a tile on a board (`TileData` in
`minesweeper-board.ts`): a bomb, or an empty tile carrying its number of
neighboring bombs. -/
inductive TileData where
  | bomb : TileData
  | empty (bombNeighbors : Nat) : TileData
deriving DecidableEq, Repr

/-- The `state` field of a tile: `"default"` (closed, unflagged) or
`"flag"`. -/
inductive TileVisibility where
  | default : TileVisibility
  | flag : TileVisibility
deriving DecidableEq, Repr

/-- Represents the mutable state of a tile (`TileState`). -/
structure TileState where
  state : TileVisibility
  isOpen : Bool
  wasClicked : Bool
deriving DecidableEq, Repr

/-- Represents the state of the game (`BoardState`). -/
inductive BoardState where
  | not_started : BoardState
  | active : BoardState
  | won : BoardState
  | lost : BoardState
deriving DecidableEq, Repr

/-- Represents the Minesweeper board and manages the game logic
(`MinesweeperBoard`).  `bombCount` and `tilesLeftToOpenToWin` are the
fields of the same names; the signals are modelled by the event lists the
mutators return. -/
structure MinesweeperBoard where
  boardState : BoardState
  tileData : Grid TileData
  tileState : Grid TileState
  bombCount : Nat
  tilesLeftToOpenToWin : Int
deriving DecidableEq, Repr

/-- Error raised by a board mutator: the message together with the board
as mutated so far at the moment of the throw. -/
abbrev BoardErr := String × MinesweeperBoard

/-- Result of a board mutator: the updated board and the points emitted
on `tileChangedSignal`, in emission order. -/
abbrev BoardResult := Except BoardErr (MinesweeperBoard × List Point)

namespace MinesweeperBoard

/-- Reads `this.tileState.get(point)` inside a board operation; a throw
carries the current board. -/
def stateAtE (b : MinesweeperBoard) (point : Point) :
    Except BoardErr TileState :=
  match b.tileState.getOrNull point with
  | some value => Except.ok value
  | none =>
      Except.error
        ("Tried to get a point on a grid that is out of bounds", b)

/-- Reads `this.tileData.get(point)` inside a board operation. -/
def dataAtE (b : MinesweeperBoard) (point : Point) :
    Except BoardErr TileData :=
  match b.tileData.getOrNull point with
  | some value => Except.ok value
  | none =>
      Except.error
        ("Tried to get a point on a grid that is out of bounds", b)

/-- An `assert` inside a board operation (`utils/assert.ts`); a failure
carries the current board. -/
def assertB (condition : Prop) [Decidable condition] (message : String)
    (b : MinesweeperBoard) : Except BoardErr Unit :=
  if condition then Except.ok () else Except.error (message, b)

/-- Writes a new tile state at a point (the in-place mutation of the
object returned by `tileState.get(point)`). -/
def setTS (b : MinesweeperBoard) (point : Point) (value : TileState) :
    MinesweeperBoard :=
  { b with tileState := b.tileState.setAt point value }

/-- The private `boardState` setter (also emits
`boardStateChangedSignal`, which the claims observe through the
`boardState` field itself). -/
def setBoardState (b : MinesweeperBoard) (newState : BoardState) :
    MinesweeperBoard :=
  { b with boardState := newState }

/-- The initial mutable state of every tile, as built in the
constructor. -/
def initTileState : TileState :=
  { state := TileVisibility.default, isOpen := false, wasClicked := false }

/-- Creates a Minesweeper board from an explicit bomb layout (the
`MinesweeperBoard` constructor). -/
def mkBoard (width height : Nat) (bombsArray : List Bool) :
    Except String MinesweeperBoard :=
  match assertG (0 < width) ("Width should be greater than zero") with
  | Except.error e => Except.error e
  | Except.ok _ =>
  match assertG (0 < height) ("Height should be greater than zero") with
  | Except.error e => Except.error e
  | Except.ok _ =>
  match assertG (bombsArray.length = width * height)
      ("Bomb array should be as long as the size of the cells of the grid") with
  | Except.error e => Except.error e
  | Except.ok _ =>
  match mkGrid width height bombsArray with
  | Except.error e => Except.error e
  | Except.ok bombsGrid =>
  match bombsGrid.mapIndexed (fun point isBomb =>
      if isBomb then TileData.bomb
      else
        TileData.empty
          (((eightWayNeighbors point).filter (fun q =>
            ((bombsGrid.getOrNull q).getD false))).length)) with
  | Except.error e => Except.error e
  | Except.ok tileData =>
  match mkGrid width height
      (List.replicate (width * height) initTileState) with
  | Except.error e => Except.error e
  | Except.ok tileState =>
    let bombCount := bombsArray.countP (fun isBomb => isBomb)
    Except.ok
      { boardState := BoardState.not_started,
        tileData := tileData,
        tileState := tileState,
        bombCount := bombCount,
        tilesLeftToOpenToWin := ((width * height : Nat) : Int) - bombCount }

/-- The bomb layout array built by `MinesweeperBoard.generate`:
`new Array(width * height).fill(true, 0, bombs).fill(false, bombs)`. -/
def mkBombsArray (size bombs : Nat) : List Bool :=
  List.replicate (min bombs size) true ++ List.replicate (size - bombs) false

/-- Creates a new Minesweeper board with random bomb placement
(`MinesweeperBoard.generate`), the randomness supplied by `choice`. -/
def generate (width height bombs : Nat) (choice : Nat → Nat) :
    Except String MinesweeperBoard :=
  mkBoard width height
    (shuffleArray choice (mkBombsArray (width * height) bombs))

end MinesweeperBoard

namespace MinesweeperBoard

/-- The loop body of `checkWin` over the remaining points: flag every
bomb tile not already flagged, emitting a change notification each. -/
def checkWinLoop (b : MinesweeperBoard) : List Point → BoardResult
  | [] => Except.ok (b, [])
  | p :: ps =>
    match b.dataAtE p with
    | Except.error e => Except.error e
    | Except.ok tileData =>
      if tileData ≠ TileData.bomb then checkWinLoop b ps
      else
        match b.stateAtE p with
        | Except.error e => Except.error e
        | Except.ok tileState =>
          if tileState.state = TileVisibility.flag then checkWinLoop b ps
          else
            match checkWinLoop
                (b.setTS p { tileState with state := TileVisibility.flag })
                ps with
            | Except.error e => Except.error e
            | Except.ok (b2, events) => Except.ok (b2, p :: events)

/-- Checks if the player has won the game (`checkWin`): asserts the
counter is non-negative, returns unless it is zero, otherwise flags all
bombs and sets the board state to won. -/
def checkWin (b : MinesweeperBoard) : BoardResult :=
  match assertB (0 ≤ b.tilesLeftToOpenToWin)
      ("This number should never be negative") b with
  | Except.error e => Except.error e
  | Except.ok _ =>
    if b.tilesLeftToOpenToWin ≠ 0 then Except.ok (b, [])
    else
      match checkWinLoop b b.tileData.points with
      | Except.error e => Except.error e
      | Except.ok (b2, events) =>
        Except.ok (b2.setBoardState BoardState.won, events)

/-- Toggles the state of a tile between default and flag
(`changeTileState`). -/
def changeTileState (b : MinesweeperBoard) (point : Point) : BoardResult :=
  let b := if b.boardState = BoardState.not_started then
    b.setBoardState BoardState.active else b
  if b.boardState ≠ BoardState.active then Except.ok (b, [])
  else
    match b.stateAtE point with
    | Except.error e => Except.error e
    | Except.ok tileState =>
      if tileState.isOpen then Except.ok (b, [])
      else
        let newVisibility := match tileState.state with
          | TileVisibility.default => TileVisibility.flag
          | TileVisibility.flag => TileVisibility.default
        Except.ok
          (b.setTS point { tileState with state := newVisibility }, [point])

/-- Runs `rec` (an open primitive) over a list of points in order,
threading the board and concatenating emitted events (the `for` loops
that call `setTileOpen` on each element). -/
def openListF (rec : MinesweeperBoard → Point → BoardResult)
    (b : MinesweeperBoard) : List Point → BoardResult
  | [] => Except.ok (b, [])
  | q :: qs =>
    match rec b q with
    | Except.error e => Except.error e
    | Except.ok (b1, events1) =>
      match openListF rec b1 qs with
      | Except.error e => Except.error e
      | Except.ok (b2, events2) => Except.ok (b2, events1 ++ events2)

/-- Opens a tile and recursively opens neighboring tiles if there are no
bomb neighbors (`setTileOpen`), with explicit recursion fuel.  Diagnostic
no-op if the tile is already open or not in the default state; otherwise
marks it open, emits a notification, decrements the remaining-to-win
counter for empty tiles, and floods into the in-bounds eight-way
neighbors when the bomb-neighbor count is zero. -/
def setTileOpenF : Nat → MinesweeperBoard → Point → Bool → BoardResult
  | 0, b, _, _ => Except.error ("flood fill ran out of fuel", b)
  | fuel + 1, b, point, wasClicked =>
    match b.stateAtE point with
    | Except.error e => Except.error e
    | Except.ok tileState =>
      match b.dataAtE point with
      | Except.error e => Except.error e
      | Except.ok tileData =>
        if tileState.isOpen then Except.ok (b, [])
        else if tileState.state ≠ TileVisibility.default then Except.ok (b, [])
        else
          let b1 := b.setTS point
            { tileState with isOpen := true, wasClicked := wasClicked }
          match tileData with
          | TileData.bomb => Except.ok (b1, [point])
          | TileData.empty bombNeighbors =>
            let b2 := { b1 with
              tilesLeftToOpenToWin := b1.tilesLeftToOpenToWin - 1 }
            if bombNeighbors ≠ 0 then Except.ok (b2, [point])
            else
              match openListF (fun b q => setTileOpenF fuel b q false) b2
                  ((eightWayNeighbors point).filter
                    (fun q => b2.tileData.isInBounds q)) with
              | Except.error e => Except.error e
              | Except.ok (b3, events) => Except.ok (b3, point :: events)

/-- The `setTileOpen` primitive with enough fuel for the whole cascade
(each recursion step opens a previously closed tile, so the number of
tiles bounds the depth; the fuel-irrelevance theorem below shows the
bound is never reached). -/
def setTileOpen (b : MinesweeperBoard) (point : Point) (wasClicked : Bool) :
    BoardResult :=
  setTileOpenF (b.tileState.array.length + 1) b point wasClicked

/-- The loop of `handleLose` over the remaining points: force-open every
unflagged bomb and every incorrectly flagged empty tile, emitting a
change notification each. -/
def handleLoseLoop (b : MinesweeperBoard) : List Point → BoardResult
  | [] => Except.ok (b, [])
  | p :: ps =>
    match b.dataAtE p with
    | Except.error e => Except.error e
    | Except.ok tileData =>
      match b.stateAtE p with
      | Except.error e => Except.error e
      | Except.ok tileState =>
        let isUnflaggedBomb := tileData = TileData.bomb ∧
          tileState.state = TileVisibility.default
        let isIncorrectFlag := tileData ≠ TileData.bomb ∧
          tileState.state = TileVisibility.flag
        if ¬isUnflaggedBomb ∧ ¬isIncorrectFlag then handleLoseLoop b ps
        else
          match handleLoseLoop (b.setTS p { tileState with isOpen := true })
              ps with
          | Except.error e => Except.error e
          | Except.ok (b2, events) => Except.ok (b2, p :: events)

/-- Called when the player loses the game (`handleLose`): reveals all
bombs and all incorrect flags, then sets the board state to lost. -/
def handleLose (b : MinesweeperBoard) : BoardResult :=
  match handleLoseLoop b b.tileData.points with
  | Except.error e => Except.error e
  | Except.ok (b2, events) =>
    Except.ok (b2.setBoardState BoardState.lost, events)

/-- Filters a list of points by a predicate on their current tile state,
reading each state with the throwing `get` (the `filter` callbacks in
`openNeighbors`). -/
def filterTS (b : MinesweeperBoard) (pred : TileState → Bool) :
    List Point → Except BoardErr (List Point)
  | [] => Except.ok []
  | q :: qs =>
    match b.stateAtE q with
    | Except.error e => Except.error e
    | Except.ok tileState =>
      match filterTS b pred qs with
      | Except.error e => Except.error e
      | Except.ok rest =>
        if pred tileState then Except.ok (q :: rest) else Except.ok rest

/-- The second loop of `openNeighbors`: checks whether any of the
just-opened neighbors is a bomb. -/
def findBomb (b : MinesweeperBoard) : List Point → Except BoardErr Bool
  | [] => Except.ok false
  | q :: qs =>
    match b.dataAtE q with
    | Except.error e => Except.error e
    | Except.ok tileData =>
      if tileData = TileData.bomb then Except.ok true else findBomb b qs

/-- Opens the neighbors of a tile if enough flags are present
(`openNeighbors`, the chord operation). -/
def openNeighbors (b : MinesweeperBoard) (point : Point) : BoardResult :=
  match b.stateAtE point with
  | Except.error e => Except.error e
  | Except.ok tileState =>
    if ¬tileState.isOpen then Except.ok (b, [])
    else
      match b.dataAtE point with
      | Except.error e => Except.error e
      | Except.ok tileData =>
        match assertB (tileData ≠ TileData.bomb)
            ("Bomb tile can't be open, while the game is still running and you can click stuff")
            b with
        | Except.error e => Except.error e
        | Except.ok _ =>
          let bombNeighbors := match tileData with
            | TileData.bomb => 0
            | TileData.empty k => k
          let neighbors := (eightWayNeighbors point).filter
            (fun q => b.tileData.isInBounds q)
          match b.filterTS (fun s =>
              !s.isOpen && s.state = TileVisibility.flag) neighbors with
          | Except.error e => Except.error e
          | Except.ok flagNeighbors =>
            if flagNeighbors.length ≠ bombNeighbors then Except.ok (b, [])
            else
              match b.filterTS (fun s =>
                  !s.isOpen && s.state ≠ TileVisibility.flag) neighbors with
              | Except.error e => Except.error e
              | Except.ok neighborsToOpen =>
                match openListF (fun b q => setTileOpen b q true) b
                    neighborsToOpen with
                | Except.error e => Except.error e
                | Except.ok (b1, events1) =>
                  match findBomb b1 neighborsToOpen with
                  | Except.error e => Except.error e
                  | Except.ok anyBomb =>
                    if anyBomb then
                      match handleLose b1 with
                      | Except.error e => Except.error e
                      | Except.ok (b2, events2) =>
                        Except.ok (b2, events1 ++ events2)
                    else
                      match checkWin b1 with
                      | Except.error e => Except.error e
                      | Except.ok (b2, events2) =>
                        Except.ok (b2, events1 ++ events2)

/-- Opens a tile if it is in the default state, then triggers the win or
lose condition (`openTile`). -/
def openTile (b : MinesweeperBoard) (point : Point) : BoardResult :=
  match b.stateAtE point with
  | Except.error e => Except.error e
  | Except.ok tileState =>
    if tileState.state ≠ TileVisibility.default then Except.ok (b, [])
    else
      match b.setTileOpen point true with
      | Except.error e => Except.error e
      | Except.ok (b1, events1) =>
        match b1.dataAtE point with
        | Except.error e => Except.error e
        | Except.ok tileData =>
          if tileData = TileData.bomb then
            match b1.handleLose with
            | Except.error e => Except.error e
            | Except.ok (b2, events2) => Except.ok (b2, events1 ++ events2)
          else
            match b1.checkWin with
            | Except.error e => Except.error e
            | Except.ok (b2, events2) => Except.ok (b2, events1 ++ events2)

/-- Opens a tile if it is not open, opens the neighbors of the tile if
it is open (`clickTile`). -/
def clickTile (b : MinesweeperBoard) (point : Point) : BoardResult :=
  let b := if b.boardState = BoardState.not_started then
    b.setBoardState BoardState.active else b
  if b.boardState ≠ BoardState.active then Except.ok (b, [])
  else
    match b.stateAtE point with
    | Except.error e => Except.error e
    | Except.ok tileState =>
      if tileState.isOpen then b.openNeighbors point
      else b.openTile point

end MinesweeperBoard

/-- Number of closed (not yet open) tiles in a state array; this bounds
the depth of the flood-fill recursion. -/
def countClosed (l : List TileState) : Nat :=
  l.countP (fun s => !s.isOpen)

/-- Number of positions that hold an empty (non-bomb) tile which is
open, over the two parallel arrays. -/
def countOpenEmpty : List TileData → List TileState → Nat
  | d :: ds, s :: ss =>
    (if d ≠ TileData.bomb ∧ s.isOpen then 1 else 0) + countOpenEmpty ds ss
  | _, _ => 0

namespace MinesweeperBoard

/-- The tile state at a point, `none` when out of bounds. -/
def stateAt (b : MinesweeperBoard) (point : Point) : Option TileState :=
  b.tileState.getOrNull point

/-- The tile data at a point, `none` when out of bounds. -/
def dataAt (b : MinesweeperBoard) (point : Point) : Option TileData :=
  b.tileData.getOrNull point

/-- Number of closed tiles on the board. -/
def closedCount (b : MinesweeperBoard) : Nat :=
  countClosed b.tileState.array

/-- Number of open empty tiles on the board. -/
def openEmptyCount (b : MinesweeperBoard) : Nat :=
  countOpenEmpty b.tileData.array b.tileState.array

/-- Number of empty (non-bomb) tiles on the board. -/
def emptyCount (b : MinesweeperBoard) : Nat :=
  b.tileData.array.countP (fun d => d ≠ TileData.bomb)

/-- Number of bomb tiles on the board. -/
def bombTileCount (b : MinesweeperBoard) : Nat :=
  b.tileData.array.countP (fun d => d = TileData.bomb)

/-- Well-formedness of a board: positive dimensions, the two grids share
their dimensions, and both backing arrays have exactly
`width * height` elements.  The constructor establishes this and every
operation preserves it. -/
@[reducible] def WF (b : MinesweeperBoard) : Prop :=
  0 < b.tileData.width ∧ 0 < b.tileData.height ∧
  b.tileState.width = b.tileData.width ∧
  b.tileState.height = b.tileData.height ∧
  b.tileData.array.length = b.tileData.width * b.tileData.height ∧
  b.tileState.array.length = b.tileData.array.length

/-- The remaining-to-win counter equals the number of empty tiles not
yet open. -/
@[reducible] def CounterInv (b : MinesweeperBoard) : Prop :=
  b.tilesLeftToOpenToWin = (b.emptyCount : Int) - (b.openEmptyCount : Int)

/-- The engine invariant: well-formed, counter non-negative, and (while
the game is not lost) the counter counts the empty tiles left to
open. -/
@[reducible] def Inv (b : MinesweeperBoard) : Prop :=
  b.WF ∧ 0 ≤ b.tilesLeftToOpenToWin ∧
    (b.boardState ≠ BoardState.lost → b.CounterInv)

/-- The true number of in-bounds eight-way neighbors of `point` that
are bombs. -/
def bombNeighborCountAt (b : MinesweeperBoard) (point : Point) : Nat :=
  ((eightWayNeighbors point).filter (fun q => b.tileData.isInBounds q)).countP
    (fun q => b.dataAt q = some TileData.bomb)

/-- Every empty tile's stored `bombNeighbors` equals the true number of
bomb neighbors.  The constructor computes the counts this way and the
tile data is never mutated afterwards. -/
def Consistent (b : MinesweeperBoard) : Prop :=
  ∀ p ∈ b.tileData.points, ∀ k,
    b.dataAt p = some (TileData.empty k) → k = b.bombNeighborCountAt p

/-- Number of in-bounds eight-way neighbors of `point` that are closed
and flagged (the `flagNeighbors.length` of `openNeighbors`). -/
def flagNeighborCount (b : MinesweeperBoard) (point : Point) : Nat :=
  ((eightWayNeighbors point).filter (fun q => b.tileData.isInBounds q)).countP
    (fun q => match b.stateAt q with
      | some s => !s.isOpen && s.state = TileVisibility.flag
      | none => false)

/-- The boards reachable by the external driver: a freshly constructed
board, followed by any sequence of successful `clickTile` /
`changeTileState` calls. -/
inductive Reachable : MinesweeperBoard → Prop where
  | init (width height : Nat) (bombsArray : List Bool) (b : MinesweeperBoard) :
      mkBoard width height bombsArray = Except.ok b → Reachable b
  | click (b b2 : MinesweeperBoard) (point : Point) (events : List Point) :
      Reachable b → clickTile b point = Except.ok (b2, events) → Reachable b2
  | flag (b b2 : MinesweeperBoard) (point : Point) (events : List Point) :
      Reachable b → changeTileState b point = Except.ok (b2, events) →
      Reachable b2

end MinesweeperBoard

/-- Relation between the board before and after a (successful)
`setTileOpen` cascade: tile data, board state and bomb count are
untouched, the state grid keeps its shape, tiles only ever flip from
closed-and-default to open (never the reverse, and flags are never
touched), the sum of the remaining-to-win counter and the number of open
empty tiles is preserved, and the number of closed tiles does not
grow. -/
structure SetOpenSpec (b b2 : MinesweeperBoard) : Prop where
  dataEq : b2.tileData = b.tileData
  boardStateEq : b2.boardState = b.boardState
  bombCountEq : b2.bombCount = b.bombCount
  widthEq : b2.tileState.width = b.tileState.width
  heightEq : b2.tileState.height = b.tileState.height
  lenEq : b2.tileState.array.length = b.tileState.array.length
  stateMono : ∀ q, b2.stateAt q = b.stateAt q ∨
    ∃ ts w, b.stateAt q = some ts ∧ ts.isOpen = false ∧
      ts.state = TileVisibility.default ∧
      b2.stateAt q = some { ts with isOpen := true, wasClicked := w }
  counterEq : b2.tilesLeftToOpenToWin + (b2.openEmptyCount : Int) =
    b.tilesLeftToOpenToWin + (b.openEmptyCount : Int)
  closedLe : b2.closedCount ≤ b.closedCount

/-- Runs `changeTileState` and keeps the resulting board (driver helper
for concrete scenarios). -/
def stepFlag (b : MinesweeperBoard) (point : Point) : MinesweeperBoard :=
  match b.changeTileState point with
  | Except.ok (b2, _) => b2
  | Except.error _ => b

/-- Runs `clickTile` and keeps the resulting board (driver helper for
concrete scenarios). -/
def stepClick (b : MinesweeperBoard) (point : Point) : MinesweeperBoard :=
  match b.clickTile point with
  | Except.ok (b2, _) => b2
  | Except.error _ => b

/-- A concrete 2-by-1 board: a bomb at `(0, 0)`, an empty tile with one
bomb neighbor at `(1, 0)`. -/
def B21 : MinesweeperBoard :=
  { boardState := BoardState.not_started,
    tileData :=
      { width := 2, height := 1, size := 2,
        array := [TileData.bomb, TileData.empty 1] },
    tileState :=
      { width := 2, height := 1, size := 2,
        array := [MinesweeperBoard.initTileState,
                  MinesweeperBoard.initTileState] },
    bombCount := 1,
    tilesLeftToOpenToWin := 1 }

/-- A concrete 3-by-3 board with a single bomb in the center. -/
def B33 : MinesweeperBoard :=
  match MinesweeperBoard.mkBoard 3 3
      [false, false, false, false, true, false, false, false, false] with
  | Except.ok b => b
  | Except.error _ => B21

namespace MinesweeperBoard

/-- The tile state update the win sweep applies at one cell: a bomb not
yet flagged becomes flagged, all other cells are untouched. -/
def winFlagTS (d : TileData) (s : TileState) : TileState :=
  if d = TileData.bomb ∧ s.state ≠ TileVisibility.flag then
    { s with state := TileVisibility.flag }
  else s

/-- Whether the win sweep touches (and notifies for) the cell at `q`. -/
def winFlagp (b : MinesweeperBoard) (q : Point) : Bool :=
  match b.dataAt q, b.stateAt q with
  | some d, some s =>
    decide (d = TileData.bomb ∧ s.state ≠ TileVisibility.flag)
  | _, _ => false

/-- The tile state update the loss reveal applies at one cell: an
unflagged bomb or a misflagged empty tile is forced open, all other
cells are untouched. -/
def loseTS (d : TileData) (s : TileState) : TileState :=
  if (d = TileData.bomb ∧ s.state = TileVisibility.default) ∨
      (d ≠ TileData.bomb ∧ s.state = TileVisibility.flag) then
    { s with isOpen := true }
  else s

/-- Whether the loss reveal touches (and notifies for) the cell at
`q`: exactly the unflagged bombs and the incorrectly flagged empty
tiles. -/
def losep (b : MinesweeperBoard) (q : Point) : Bool :=
  match b.dataAt q, b.stateAt q with
  | some d, some s =>
    decide ((d = TileData.bomb ∧ s.state = TileVisibility.default) ∨
      (d ≠ TileData.bomb ∧ s.state = TileVisibility.flag))
  | _, _ => false

end MinesweeperBoard

/-- The 2-by-1 board after clicking the empty tile `(1, 0)`: the win
scenario (the counter reaches zero and `checkWin` fires). -/
def B21won : MinesweeperBoard :=
  stepClick B21 { x := 1, y := 0 }

/-- The 2-by-1 board after flagging the empty tile `(1, 0)` and then
clicking the bomb at `(0, 0)`: the loss scenario, in which the loss
reveal force-opens the misflagged empty tile. -/
def B21lost : MinesweeperBoard :=
  stepClick (stepFlag B21 { x := 1, y := 0 }) { x := 0, y := 0 }

/-- The 3-by-3 board after opening the corner `(0, 0)` and flagging the
center bomb: the chord scenario. -/
def B33f : MinesweeperBoard :=
  stepFlag (stepClick B33 { x := 0, y := 0 }) { x := 1, y := 1 }

/-- The board and events produced by chording the opened corner of
`B33f`. -/
def B33chord : MinesweeperBoard × List Point :=
  match B33f.openNeighbors { x := 0, y := 0 } with
  | Except.ok r => r
  | Except.error _ => (B33f, [])

/-- The board and events produced by `setTileOpen` on the corner of
`B33`. -/
def B33open : MinesweeperBoard × List Point :=
  match B33.setTileOpen { x := 0, y := 0 } true with
  | Except.ok r => r
  | Except.error _ => (B33, [])

/-- The board and events produced by running the loss reveal directly on
`B21`. -/
def B21lose : MinesweeperBoard × List Point :=
  match B21.handleLose with
  | Except.ok r => r
  | Except.error _ => (B21, [])

/-- The board and events produced by running the win check on the won
2-by-1 board. -/
def B21wonCW : MinesweeperBoard × List Point :=
  match B21won.checkWin with
  | Except.ok r => r
  | Except.error _ => (B21won, [])

/-- A generated 2-by-2 board with one bomb, the random draws all
zero. -/
def G22 : MinesweeperBoard :=
  match MinesweeperBoard.generate 2 2 1 (fun _ => 0) with
  | Except.ok b => b
  | Except.error _ => B21

/-! ### Generic counting lemmas -/

theorem countP_set_eq (pred : α → Bool) (l : List α) (i : Nat) (v x : α)
    (hx : l.get? i = some x) :
    (l.set i v).countP pred + (if pred x then 1 else 0) =
      l.countP pred + (if pred v then 1 else 0) := by
  induction l generalizing i with
  | nil => simp at hx
  | cons a t ih =>
    cases i with
    | zero =>
      simp only [List.get?] at hx
      cases hx
      simp [List.countP_cons]
      omega
    | succ n =>
      simp only [List.get?] at hx
      have := ih n hx
      simp [List.countP_cons]
      omega

theorem countOpenEmpty_set (ds : List TileData) (ss : List TileState)
    (i : Nat) (v : TileState) (d : TileData) (s : TileState)
    (hd : ds.get? i = some d) (hs : ss.get? i = some s) :
    countOpenEmpty ds (ss.set i v) +
      (if d ≠ TileData.bomb ∧ s.isOpen then 1 else 0) =
    countOpenEmpty ds ss +
      (if d ≠ TileData.bomb ∧ v.isOpen then 1 else 0) := by
  induction ds generalizing ss i with
  | nil => simp at hd
  | cons a t ih =>
    cases ss with
    | nil => simp at hs
    | cons b u =>
      cases i with
      | zero =>
        simp only [List.get?] at hd hs
        cases hd; cases hs
        simp [countOpenEmpty]
        omega
      | succ n =>
        simp only [List.get?] at hd hs
        have := ih u n hd hs
        simp only [List.set, countOpenEmpty]
        omega

theorem countOpenEmpty_le (ds : List TileData) (ss : List TileState) :
    countOpenEmpty ds ss ≤ ds.countP (fun d => d ≠ TileData.bomb) := by
  induction ds generalizing ss with
  | nil => simp [countOpenEmpty]
  | cons a t ih =>
    cases ss with
    | nil => simp [countOpenEmpty]
    | cons b u =>
      have := ih u
      simp only [countOpenEmpty, List.countP_cons]
      by_cases h : a = TileData.bomb <;> by_cases hb : b.isOpen <;>
        simp [h, hb] at this ⊢ <;> omega

theorem countOpenEmpty_closed (ds : List TileData) (ss : List TileState)
    (h : ∀ s ∈ ss, s.isOpen = false) : countOpenEmpty ds ss = 0 := by
  induction ds generalizing ss with
  | nil => simp [countOpenEmpty]
  | cons a t ih =>
    cases ss with
    | nil => simp [countOpenEmpty]
    | cons b u =>
      have hb := h b (by simp)
      have := ih u (fun s hs => h s (by simp [hs]))
      simp [countOpenEmpty, hb, this]

theorem countP_range_get? (l : List α) (pred : α → Bool) :
    (List.range l.length).countP
      (fun i => match l.get? i with | some v => pred v | none => false) =
      l.countP pred := by
  induction l with
  | nil => simp
  | cons a t ih =>
    rw [List.length_cons, List.range_succ_eq_map, List.countP_cons,
      List.countP_map]
    have hcomp : ((fun i => match (a :: t).get? i with
        | some v => pred v | none => false) ∘ Nat.succ) =
        (fun i => match t.get? i with | some v => pred v | none => false) := by
      funext i
      simp [List.get?_eq_getElem?]
    rw [hcomp, ih, List.countP_cons]
    simp [List.get?_eq_getElem?]

/-! ### Grid lemmas -/

namespace Grid

theorem isInBounds_iff (g : Grid α) (p : Point) :
    g.isInBounds p = true ↔
      0 ≤ p.x ∧ p.x < (g.width : Int) ∧ 0 ≤ p.y ∧ p.y < (g.height : Int) := by
  simp only [isInBounds, decide_eq_true_eq]
  tauto

theorem isInBounds_nat (g : Grid α) (x y : Nat) (hx : x < g.width)
    (hy : y < g.height) :
    g.isInBounds { x := (x : Int), y := (y : Int) } = true := by
  rw [isInBounds_iff]
  refine ⟨?_, ?_, ?_, ?_⟩
  · show (0 : Int) ≤ (x : Int)
    positivity
  · show (x : Int) < (g.width : Int)
    exact_mod_cast hx
  · show (0 : Int) ≤ (y : Int)
    positivity
  · show (y : Int) < (g.height : Int)
    exact_mod_cast hy

theorem exists_nat_coords (g : Grid α) (p : Point)
    (h : g.isInBounds p = true) :
    ∃ x y : Nat, p = { x := (x : Int), y := (y : Int) } ∧ x < g.width ∧
      y < g.height := by
  rw [isInBounds_iff] at h
  obtain ⟨hx0, hxw, hy0, hyh⟩ := h
  refine ⟨p.x.toNat, p.y.toNat, ?_, ?_, ?_⟩
  · cases p
    simp only [Point.mk.injEq]
    constructor <;> simp [Int.toNat_of_nonneg, hx0, hy0]
  · omega
  · omega

theorem toNat_index_eq (w : Nat) (x y : Nat) :
    (((x : Int)) + (w : Int) * ((y : Int))).toNat = x + w * y := by
  have : ((x : Int)) + (w : Int) * ((y : Int)) = ((x + w * y : Nat) : Int) := by
    push_cast
    ring
  rw [this, Int.toNat_natCast]

theorem index_lt (w h x y : Nat) (hx : x < w) (hy : y < h) :
    x + w * y < w * h := by
  have h1 : x + w * y < w * (y + 1) := by
    rw [Nat.mul_succ]
    omega
  have h2 : w * (y + 1) ≤ w * h := Nat.mul_le_mul_left w (by omega)
  omega

theorem index_inj (w : Nat) (x y x2 y2 : Nat) (hx : x < w) (hx2 : x2 < w)
    (he : x + w * y = x2 + w * y2) : x = x2 ∧ y = y2 := by
  have hm : (x + w * y) % w = (x2 + w * y2) % w := by rw [he]
  rw [Nat.add_mul_mod_self_left, Nat.add_mul_mod_self_left,
    Nat.mod_eq_of_lt hx, Nat.mod_eq_of_lt hx2] at hm
  subst hm
  have : w * y = w * y2 := by omega
  have := Nat.eq_of_mul_eq_mul_left (by omega : 0 < w) this
  omega

theorem pointToArrayIndex_inBounds (g : Grid α) (x y : Nat)
    (hx : x < g.width) (hy : y < g.height) :
    g.pointToArrayIndex { x := (x : Int), y := (y : Int) } =
      some (x + g.width * y) := by
  rw [pointToArrayIndex, if_pos (g.isInBounds_nat x y hx hy), toNat_index_eq]

theorem pointToArrayIndex_none (g : Grid α) (p : Point)
    (h : g.isInBounds p = false) : g.pointToArrayIndex p = none := by
  rw [pointToArrayIndex, if_neg]
  simp [h]

theorem getOrNull_out (g : Grid α) (p : Point)
    (h : g.isInBounds p = false) : g.getOrNull p = none := by
  rw [getOrNull, pointToArrayIndex_none g p h]

theorem getOrNull_inBounds (g : Grid α) (x y : Nat) (hx : x < g.width)
    (hy : y < g.height) :
    g.getOrNull { x := (x : Int), y := (y : Int) } =
      g.array.get? (x + g.width * y) := by
  rw [getOrNull, pointToArrayIndex_inBounds g x y hx hy]

theorem getOrNull_isSome (g : Grid α) (p : Point)
    (hlen : g.array.length = g.width * g.height)
    (h : g.isInBounds p = true) : ∃ v, g.getOrNull p = some v := by
  obtain ⟨x, y, rfl, hx, hy⟩ := g.exists_nat_coords p h
  rw [getOrNull_inBounds g x y hx hy]
  have hidx : x + g.width * y < g.array.length := by
    rw [hlen]
    exact index_lt _ _ _ _ hx hy
  rw [List.get?_eq_getElem?]
  exact ⟨_, List.getElem?_eq_getElem hidx⟩

end Grid

/-! ### Row-major points lemmas -/

theorem rowMajorPoints_succ (w h : Nat) :
    rowMajorPoints w (h + 1) = rowMajorPoints w h ++
      (List.range w).map (fun (x : Nat) => { x := (x : Int), y := (h : Int) }) := by
  rw [rowMajorPoints, List.range_succ, List.flatMap_append, rowMajorPoints]
  congr 1
  rw [List.flatMap_cons, List.flatMap_nil, List.append_nil]

theorem rowMajorPoints_length (w h : Nat) :
    (rowMajorPoints w h).length = w * h := by
  induction h with
  | zero => simp [rowMajorPoints]
  | succ n ih =>
    rw [rowMajorPoints_succ, List.length_append, ih, List.length_map,
      List.length_range, Nat.mul_succ]

theorem rowMajorPoints_get? (w h x y : Nat) (hx : x < w) (hy : y < h) :
    (rowMajorPoints w h).get? (x + w * y) =
      some { x := (x : Int), y := (y : Int) } := by
  induction h with
  | zero => omega
  | succ n ih =>
    rw [rowMajorPoints_succ]
    by_cases hyn : y < n
    · rw [List.get?_append]
      · exact ih hyn
      · rw [rowMajorPoints_length]
        exact Grid.index_lt w n x y hx hyn
    · have hyeq : y = n := by omega
      subst hyeq
      rw [List.get?_append_right]
      · rw [rowMajorPoints_length, Nat.add_sub_cancel, List.get?_map]
        rw [List.get?_eq_getElem?, List.getElem?_range hx]
        rfl
      · rw [rowMajorPoints_length]
        omega

theorem mem_rowMajorPoints (w h : Nat) (p : Point) :
    p ∈ rowMajorPoints w h ↔
      0 ≤ p.x ∧ p.x < (w : Int) ∧ 0 ≤ p.y ∧ p.y < (h : Int) := by
  induction h with
  | zero =>
    rw [rowMajorPoints, List.range_zero, List.flatMap_nil]
    constructor
    · intro hmem
      cases hmem
    · rintro ⟨_, _, hy0, hyh⟩
      simp only [Nat.cast_zero] at hyh
      omega
  | succ n ih =>
    rw [rowMajorPoints_succ, List.mem_append, ih]
    constructor
    · rintro (⟨hx0, hxw, hy0, hyn⟩ | hmem)
      · refine ⟨hx0, hxw, hy0, ?_⟩
        push_cast
        omega
      · rw [List.mem_map] at hmem
        obtain ⟨x, hx, rfl⟩ := hmem
        rw [List.mem_range] at hx
        refine ⟨?_, ?_, ?_, ?_⟩
        · show (0 : Int) ≤ (x : Int)
          positivity
        · show (x : Int) < (w : Int)
          exact_mod_cast hx
        · show (0 : Int) ≤ (n : Int)
          positivity
        · show (n : Int) < ((n + 1 : Nat) : Int)
          push_cast
          omega
    · rintro ⟨hx0, hxw, hy0, hyn1⟩
      by_cases hyn : p.y < (n : Int)
      · exact Or.inl ⟨hx0, hxw, hy0, hyn⟩
      · right
        have hyeq : p.y = (n : Int) := by
          push_cast at hyn1
          omega
        rw [List.mem_map]
        refine ⟨p.x.toNat, ?_, ?_⟩
        · rw [List.mem_range]
          omega
        · cases p
          simp only [Point.mk.injEq]
          simp only at hx0 hyeq
          constructor
          · simp [Int.toNat_of_nonneg, hx0]
          · omega

theorem rowMajorPoints_map_index (w h : Nat) :
    (rowMajorPoints w h).map
      (fun p => (p.x + (w : Int) * p.y).toNat) = List.range (w * h) := by
  induction h with
  | zero => simp [rowMajorPoints]
  | succ n ih =>
    rw [rowMajorPoints_succ, List.map_append, ih, Nat.mul_succ,
      List.range_add, List.map_map]
    congr 1
    apply List.map_congr_left
    intro x hx
    rw [List.mem_range] at hx
    simp only [Function.comp]
    rw [Grid.toNat_index_eq w x n]
    omega

theorem rowMajorPoints_nodup (w h : Nat) : (rowMajorPoints w h).Nodup :=
  List.Nodup.of_map _ ((rowMajorPoints_map_index w h).symm ▸ List.nodup_range (w * h))

/-! ### Grid points, set and map lemmas -/

namespace Grid

theorem points_length (g : Grid α) : g.points.length = g.width * g.height :=
  rowMajorPoints_length _ _

theorem mem_points (g : Grid α) (p : Point) :
    p ∈ g.points ↔ g.isInBounds p = true := by
  rw [points, mem_rowMajorPoints, isInBounds_iff]

theorem points_nodup (g : Grid α) : g.points.Nodup :=
  rowMajorPoints_nodup _ _

theorem points_get? (g : Grid α) (x y : Nat) (hx : x < g.width)
    (hy : y < g.height) :
    g.points.get? (x + g.width * y) =
      some { x := (x : Int), y := (y : Int) } :=
  rowMajorPoints_get? _ _ _ _ hx hy

theorem getOrNull_some_inBounds (g : Grid α) (p : Point) (v : α)
    (h : g.getOrNull p = some v) : g.isInBounds p = true := by
  by_cases hb : g.isInBounds p = true
  · exact hb
  · exfalso
    rw [getOrNull_out g p (by simpa using hb)] at h
    cases h

theorem setAt_width (g : Grid α) (p : Point) (v : α) :
    (g.setAt p v).width = g.width := by
  rw [setAt]
  cases g.pointToArrayIndex p <;> rfl

theorem setAt_height (g : Grid α) (p : Point) (v : α) :
    (g.setAt p v).height = g.height := by
  rw [setAt]
  cases g.pointToArrayIndex p <;> rfl

theorem setAt_array_length (g : Grid α) (p : Point) (v : α) :
    (g.setAt p v).array.length = g.array.length := by
  rw [setAt]
  cases g.pointToArrayIndex p
  · rfl
  · simp

theorem setAt_isInBounds (g : Grid α) (p q : Point) (v : α) :
    (g.setAt p v).isInBounds q = g.isInBounds q := by
  rw [isInBounds, isInBounds, setAt_width, setAt_height]

theorem setAt_pointToArrayIndex (g : Grid α) (p q : Point) (v : α) :
    (g.setAt p v).pointToArrayIndex q = g.pointToArrayIndex q := by
  rw [pointToArrayIndex, pointToArrayIndex, setAt_isInBounds, setAt_width]

theorem getOrNull_setAt_self (g : Grid α) (p : Point) (v : α)
    (hlen : g.array.length = g.width * g.height)
    (hb : g.isInBounds p = true) :
    (g.setAt p v).getOrNull p = some v := by
  obtain ⟨x, y, rfl, hx, hy⟩ := g.exists_nat_coords p hb
  rw [getOrNull, setAt_pointToArrayIndex, pointToArrayIndex_inBounds g x y hx hy]
  rw [setAt, pointToArrayIndex_inBounds g x y hx hy]
  simp only [List.get?_eq_getElem?]
  rw [List.getElem?_set_eq]
  rw [hlen]
  exact index_lt _ _ _ _ hx hy

theorem getOrNull_setAt_ne (g : Grid α) (p q : Point) (v : α)
    (hne : q ≠ p) : (g.setAt p v).getOrNull q = g.getOrNull q := by
  rw [getOrNull, getOrNull, setAt_pointToArrayIndex]
  by_cases hbp : g.isInBounds p = true
  · by_cases hbq : g.isInBounds q = true
    · obtain ⟨px, py, rfl, hpx, hpy⟩ := g.exists_nat_coords p hbp
      obtain ⟨qx, qy, rfl, hqx, hqy⟩ := g.exists_nat_coords q hbq
      rw [pointToArrayIndex_inBounds g qx qy hqx hqy]
      rw [setAt, pointToArrayIndex_inBounds g px py hpx hpy]
      simp only [List.get?_eq_getElem?]
      rw [List.getElem?_set_ne]
      intro he
      obtain ⟨hx, hy⟩ := index_inj g.width px py qx qy hpx hqx he
      subst hx
      subst hy
      exact hne rfl
    · rw [pointToArrayIndex_none g q (by simpa using hbq)]
  · rw [setAt, pointToArrayIndex_none g p (by simpa using hbp)]

theorem mkGrid_ok (w h : Nat) (arr : List α) (hw : 0 < w) (hh : 0 < h)
    (hlen : arr.length = w * h) :
    mkGrid w h arr = Except.ok
      { width := w, height := h, size := w * h, array := arr } := by
  rw [mkGrid]
  simp [assertG, hw, hh, hlen]

theorem mapPoints_ok (g : Grid α) (f : Point → α → β) (ps : List Point)
    (h : ∀ p ∈ ps, ∃ v, g.getOrNull p = some v) :
    ∃ l, g.mapPoints f ps = Except.ok l ∧
      List.Forall₂ (fun p y => ∃ v, g.getOrNull p = some v ∧ y = f p v)
        ps l := by
  induction ps with
  | nil => exact ⟨[], rfl, List.Forall₂.nil⟩
  | cons p t ih =>
    obtain ⟨v, hv⟩ := h p (by simp)
    obtain ⟨l, hl, hrel⟩ := ih (fun q hq => h q (by simp [hq]))
    refine ⟨f p v :: l, ?_, List.Forall₂.cons ⟨v, hv, rfl⟩ hrel⟩
    rw [mapPoints, getE, hv, hl]

theorem mapIndexed_ok (g : Grid α) (f : Point → α → β) (hw : 0 < g.width)
    (hh : 0 < g.height) (hlen : g.array.length = g.width * g.height) :
    ∃ g2, g.mapIndexed f = Except.ok g2 ∧ g2.width = g.width ∧
      g2.height = g.height ∧ g2.array.length = g.width * g.height ∧
      (∀ p v, g.getOrNull p = some v → g2.getOrNull p = some (f p v)) := by
  have hmem : ∀ p ∈ g.points, ∃ v, getOrNull g p = some v := fun p hp =>
    getOrNull_isSome g p hlen ((mem_points g p).mp hp)
  obtain ⟨l, hl, hrel⟩ := mapPoints_ok g f g.points hmem
  have hlen2 : l.length = g.width * g.height := by
    rw [← hrel.length_eq, points_length]
  refine ⟨Grid.mk g.width g.height (g.width * g.height) l, ?_, rfl, rfl,
    hlen2, ?_⟩
  · rw [mapIndexed, hl]
    exact mkGrid_ok g.width g.height l hw hh hlen2
  · intro p v hv
    have hb : g.isInBounds p = true := getOrNull_some_inBounds g p v hv
    obtain ⟨x, y, rfl, hx, hy⟩ := g.exists_nat_coords p hb
    rw [getOrNull_inBounds g x y hx hy] at hv
    show getOrNull _ _ = _
    rw [getOrNull_inBounds _ x y (by simpa using hx) (by simpa using hy)]
    show l.get? (x + g.width * y) = _
    have hps := g.points_get? x y hx hy
    rw [List.forall₂_iff_get] at hrel
    obtain ⟨hlen3, hget⟩ := hrel
    have hidx : x + g.width * y < g.points.length := by
      rw [points_length]
      exact index_lt _ _ _ _ hx hy
    have hidx2 : x + g.width * y < l.length := by omega
    have := hget (x + g.width * y) hidx hidx2
    rw [List.get?_eq_getElem?] at hps
    rw [List.getElem?_eq_getElem hidx] at hps
    have hpeq : g.points.get ⟨x + g.width * y, hidx⟩ =
        { x := (x : Int), y := (y : Int) } := by
      have := hps
      simp only [Option.some.injEq] at this
      exact this
    rw [hpeq] at this
    obtain ⟨v2, hv2, hyeq⟩ := this
    rw [getOrNull_inBounds g x y hx hy] at hv2
    rw [hv] at hv2
    cases hv2
    rw [List.get?_eq_getElem?, List.getElem?_eq_getElem hidx2]
    exact congrArg some hyeq

end Grid

/-! ### Board accessor lemmas -/

namespace MinesweeperBoard

theorem setTS_tileData (b : MinesweeperBoard) (p : Point) (v : TileState) :
    (b.setTS p v).tileData = b.tileData := rfl

theorem setTS_boardState (b : MinesweeperBoard) (p : Point) (v : TileState) :
    (b.setTS p v).boardState = b.boardState := rfl

theorem setTS_bombCount (b : MinesweeperBoard) (p : Point) (v : TileState) :
    (b.setTS p v).bombCount = b.bombCount := rfl

theorem setTS_counter (b : MinesweeperBoard) (p : Point) (v : TileState) :
    (b.setTS p v).tilesLeftToOpenToWin = b.tilesLeftToOpenToWin := rfl

theorem setTS_ts_width (b : MinesweeperBoard) (p : Point) (v : TileState) :
    (b.setTS p v).tileState.width = b.tileState.width :=
  Grid.setAt_width _ _ _

theorem setTS_ts_height (b : MinesweeperBoard) (p : Point) (v : TileState) :
    (b.setTS p v).tileState.height = b.tileState.height :=
  Grid.setAt_height _ _ _

theorem setTS_ts_length (b : MinesweeperBoard) (p : Point) (v : TileState) :
    (b.setTS p v).tileState.array.length = b.tileState.array.length :=
  Grid.setAt_array_length _ _ _

theorem setTS_WF (b : MinesweeperBoard) (p : Point) (v : TileState)
    (hwf : b.WF) : (b.setTS p v).WF := by
  obtain ⟨h1, h2, h3, h4, h5, h6⟩ := hwf
  refine ⟨h1, h2, ?_, ?_, h5, ?_⟩
  · rw [setTS_tileData, setTS_ts_width, h3]
  · rw [setTS_tileData, setTS_ts_height, h4]
  · rw [setTS_tileData, setTS_ts_length, h6]

theorem setTS_dataAt (b : MinesweeperBoard) (p q : Point) (v : TileState) :
    (b.setTS p v).dataAt q = b.dataAt q := rfl

theorem bounds_agree (b : MinesweeperBoard) (hwf : b.WF) (q : Point) :
    b.tileState.isInBounds q = b.tileData.isInBounds q := by
  obtain ⟨h1, h2, h3, h4, h5, h6⟩ := hwf
  rw [Grid.isInBounds, Grid.isInBounds, h3, h4]

theorem setTS_stateAt_self (b : MinesweeperBoard) (p : Point) (v : TileState)
    (hwf : b.WF) (hb : b.tileData.isInBounds p = true) :
    (b.setTS p v).stateAt p = some v := by
  obtain ⟨h1, h2, h3, h4, h5, h6⟩ := hwf
  refine Grid.getOrNull_setAt_self _ _ _ ?_ ?_
  · rw [h6, h5, h3, h4]
  · rw [bounds_agree b ⟨h1, h2, h3, h4, h5, h6⟩]
    exact hb

theorem setTS_stateAt_ne (b : MinesweeperBoard) (p q : Point) (v : TileState)
    (hne : q ≠ p) : (b.setTS p v).stateAt q = b.stateAt q :=
  Grid.getOrNull_setAt_ne _ _ _ _ hne

theorem stateAt_index (b : MinesweeperBoard) (hwf : b.WF) (x y : Nat)
    (hx : x < b.tileData.width) (hy : y < b.tileData.height) :
    b.stateAt { x := (x : Int), y := (y : Int) } =
      b.tileState.array.get? (x + b.tileData.width * y) := by
  obtain ⟨h1, h2, h3, h4, h5, h6⟩ := hwf
  rw [stateAt, Grid.getOrNull_inBounds b.tileState x y (by omega) (by omega), h3]

theorem dataAt_index (b : MinesweeperBoard) (x y : Nat)
    (hx : x < b.tileData.width) (hy : y < b.tileData.height) :
    b.dataAt { x := (x : Int), y := (y : Int) } =
      b.tileData.array.get? (x + b.tileData.width * y) := by
  rw [dataAt, Grid.getOrNull_inBounds b.tileData x y hx hy]

theorem setTS_array (b : MinesweeperBoard) (hwf : b.WF) (x y : Nat)
    (v : TileState) (hx : x < b.tileData.width) (hy : y < b.tileData.height) :
    (b.setTS { x := (x : Int), y := (y : Int) } v).tileState.array =
      b.tileState.array.set (x + b.tileData.width * y) v := by
  obtain ⟨h1, h2, h3, h4, h5, h6⟩ := hwf
  rw [setTS, Grid.setAt,
    Grid.pointToArrayIndex_inBounds b.tileState x y (by omega) (by omega), h3]

theorem dataAt_some_inBounds (b : MinesweeperBoard) (p : Point) (d : TileData)
    (h : b.dataAt p = some d) : b.tileData.isInBounds p = true :=
  Grid.getOrNull_some_inBounds _ _ _ h

theorem stateAt_some_inBounds (b : MinesweeperBoard) (p : Point)
    (ts : TileState) (hwf : b.WF) (h : b.stateAt p = some ts) :
    b.tileData.isInBounds p = true := by
  rw [← bounds_agree b hwf]
  exact Grid.getOrNull_some_inBounds _ _ _ h

end MinesweeperBoard

/-! ### The flood-fill cascade relation -/

theorem SetOpenSpec.refl (b : MinesweeperBoard) : SetOpenSpec b b :=
  ⟨rfl, rfl, rfl, rfl, rfl, rfl, fun _ => Or.inl rfl, rfl, Nat.le_refl _⟩

theorem SetOpenSpec.trans {a b c : MinesweeperBoard} (h1 : SetOpenSpec a b)
    (h2 : SetOpenSpec b c) : SetOpenSpec a c := by
  refine ⟨h2.dataEq.trans h1.dataEq, h2.boardStateEq.trans h1.boardStateEq,
    h2.bombCountEq.trans h1.bombCountEq, h2.widthEq.trans h1.widthEq,
    h2.heightEq.trans h1.heightEq, h2.lenEq.trans h1.lenEq, ?_, ?_, ?_⟩
  · intro q
    rcases h2.stateMono q with hq | ⟨ts, w, hts, hopen, hdef, hq⟩
    · rcases h1.stateMono q with hq1 | ⟨ts, w, hts, hopen, hdef, hq1⟩
      · exact Or.inl (hq.trans hq1)
      · exact Or.inr ⟨ts, w, hts, hopen, hdef, hq.trans hq1⟩
    · rcases h1.stateMono q with hq1 | ⟨ts1, w1, hts1, hopen1, hdef1, hq1⟩
      · exact Or.inr ⟨ts, w, hq1 ▸ hts, hopen, hdef, hq⟩
      · rw [hq1] at hts
        cases hts
        simp at hopen
  · rw [h2.counterEq, h1.counterEq]
  · exact Nat.le_trans h2.closedLe h1.closedLe

theorem SetOpenSpec.wf {a b : MinesweeperBoard} (hwf : a.WF)
    (h : SetOpenSpec a b) : b.WF := by
  obtain ⟨h1, h2, h3, h4, h5, h6⟩ := hwf
  rw [MinesweeperBoard.WF, h.dataEq, h.widthEq, h.heightEq, h.lenEq]
  exact ⟨h1, h2, h3, h4, h5, h6⟩

namespace MinesweeperBoard

theorem stateAtE_ok (b : MinesweeperBoard) (p : Point) (ts : TileState) :
    b.stateAtE p = Except.ok ts ↔ b.stateAt p = some ts := by
  rw [stateAtE, stateAt]
  cases b.tileState.getOrNull p with
  | none => simp
  | some v => simp

theorem dataAtE_ok (b : MinesweeperBoard) (p : Point) (d : TileData) :
    b.dataAtE p = Except.ok d ↔ b.dataAt p = some d := by
  rw [dataAtE, dataAt]
  cases b.tileData.getOrNull p with
  | none => simp
  | some v => simp

/-- The combined effect of opening one closed bomb tile: the state write
alone (no counter change). -/
theorem openBombSpec (b : MinesweeperBoard) (p : Point) (ts : TileState)
    (w : Bool) (hwf : b.WF) (hts : b.stateAt p = some ts)
    (hd : b.dataAt p = some TileData.bomb) (hopen : ts.isOpen = false)
    (hdef : ts.state = TileVisibility.default) :
    SetOpenSpec b (b.setTS p { ts with isOpen := true, wasClicked := w }) := by
  have hb : b.tileData.isInBounds p = true := dataAt_some_inBounds b p _ hd
  obtain ⟨x, y, rfl, hx, hy⟩ := b.tileData.exists_nat_coords p hb
  have hts' : b.tileState.array.get? (x + b.tileData.width * y) = some ts := by
    rw [← stateAt_index b hwf x y hx hy]
    exact hts
  have hd' : b.tileData.array.get? (x + b.tileData.width * y) =
      some TileData.bomb := by
    rw [← dataAt_index b x y hx hy]
    exact hd
  have harr := setTS_array b hwf x y
    { ts with isOpen := true, wasClicked := w } hx hy
  refine ⟨rfl, rfl, rfl, setTS_ts_width _ _ _, setTS_ts_height _ _ _,
    setTS_ts_length _ _ _, ?_, ?_, ?_⟩
  · intro q
    by_cases hq : q = ({ x := (x : Int), y := (y : Int) } : Point)
    · subst hq
      exact Or.inr ⟨ts, w, hts, hopen, hdef, setTS_stateAt_self b _ _ hwf hb⟩
    · exact Or.inl (setTS_stateAt_ne b _ q _ hq)
  · rw [setTS_counter]
    have := countOpenEmpty_set b.tileData.array b.tileState.array
      (x + b.tileData.width * y) { ts with isOpen := true, wasClicked := w }
      TileData.bomb ts hd' hts'
    simp at this
    rw [openEmptyCount, openEmptyCount, setTS_tileData, harr]
    omega
  · rw [closedCount, closedCount, harr]
    have := countP_set_eq (fun s => !s.isOpen) b.tileState.array
      (x + b.tileData.width * y) { ts with isOpen := true, wasClicked := w }
      ts hts'
    simp [hopen] at this
    rw [countClosed, countClosed]
    omega

/-- The combined effect of opening one closed empty tile: the state
write together with the counter decrement. -/
theorem openEmptySpec (b : MinesweeperBoard) (p : Point) (ts : TileState)
    (w : Bool) (k : Nat) (hwf : b.WF) (hts : b.stateAt p = some ts)
    (hd : b.dataAt p = some (TileData.empty k)) (hopen : ts.isOpen = false)
    (hdef : ts.state = TileVisibility.default) :
    SetOpenSpec b
      { b.setTS p { ts with isOpen := true, wasClicked := w } with
        tilesLeftToOpenToWin :=
          (b.setTS p { ts with isOpen := true, wasClicked := w
            }).tilesLeftToOpenToWin - 1 } := by
  have hb : b.tileData.isInBounds p = true := dataAt_some_inBounds b p _ hd
  obtain ⟨x, y, rfl, hx, hy⟩ := b.tileData.exists_nat_coords p hb
  have hts' : b.tileState.array.get? (x + b.tileData.width * y) = some ts := by
    rw [← stateAt_index b hwf x y hx hy]
    exact hts
  have hd' : b.tileData.array.get? (x + b.tileData.width * y) =
      some (TileData.empty k) := by
    rw [← dataAt_index b x y hx hy]
    exact hd
  have harr := setTS_array b hwf x y
    { ts with isOpen := true, wasClicked := w } hx hy
  refine ⟨rfl, rfl, rfl, setTS_ts_width _ _ _, setTS_ts_height _ _ _,
    setTS_ts_length _ _ _, ?_, ?_, ?_⟩
  · intro q
    by_cases hq : q = ({ x := (x : Int), y := (y : Int) } : Point)
    · subst hq
      refine Or.inr ⟨ts, w, hts, hopen, hdef, ?_⟩
      show (b.setTS _ _).stateAt _ = _
      exact setTS_stateAt_self b _ _ hwf hb
    · refine Or.inl ?_
      show (b.setTS _ _).stateAt q = _
      exact setTS_stateAt_ne b _ q _ hq
  · show (b.setTS _ _).tilesLeftToOpenToWin - 1 + _ = _
    rw [setTS_counter]
    have := countOpenEmpty_set b.tileData.array b.tileState.array
      (x + b.tileData.width * y) { ts with isOpen := true, wasClicked := w }
      (TileData.empty k) ts hd' hts'
    simp [hopen] at this
    show _ + (countOpenEmpty b.tileData.array
      (b.setTS _ _).tileState.array : Int) = _
    rw [harr]
    rw [openEmptyCount]
    omega
  · show countClosed (b.setTS _ _).tileState.array ≤ _
    rw [harr]
    have := countP_set_eq (fun s => !s.isOpen) b.tileState.array
      (x + b.tileData.width * y) { ts with isOpen := true, wasClicked := w }
      ts hts'
    simp [hopen] at this
    rw [closedCount, countClosed, countClosed]
    omega

end MinesweeperBoard

theorem openListF_spec (rec : MinesweeperBoard → Point → BoardResult)
    (hrec : ∀ b q b2 ev, rec b q = Except.ok (b2, ev) → b.WF →
      SetOpenSpec b b2) :
    ∀ (ps : List Point) (b b2 : MinesweeperBoard) (ev : List Point),
      MinesweeperBoard.openListF rec b ps = Except.ok (b2, ev) → b.WF →
      SetOpenSpec b b2 := by
  intro ps
  induction ps with
  | nil =>
    intro b b2 ev h hwf
    simp only [MinesweeperBoard.openListF] at h
    cases h
    exact SetOpenSpec.refl b
  | cons q qs ih =>
    intro b b2 ev h hwf
    simp only [MinesweeperBoard.openListF] at h
    cases h1 : rec b q with
    | error e =>
      simp only [h1] at h
      cases h
    | ok r1 =>
      obtain ⟨b1, ev1⟩ := r1
      simp only [h1] at h
      cases h2 : MinesweeperBoard.openListF rec b1 qs with
      | error e =>
        rw [h2] at h
        cases h
      | ok r2 =>
        obtain ⟨b3, ev2⟩ := r2
        rw [h2] at h
        cases h
        have s1 := hrec b q b1 ev1 h1 hwf
        exact s1.trans (ih b1 _ ev2 h2 (s1.wf hwf))

theorem setTileOpenF_spec :
    ∀ (fuel : Nat) (b : MinesweeperBoard) (p : Point) (w : Bool)
      (b2 : MinesweeperBoard) (ev : List Point),
      MinesweeperBoard.setTileOpenF fuel b p w = Except.ok (b2, ev) →
      b.WF → SetOpenSpec b b2 := by
  intro fuel
  induction fuel with
  | zero =>
    intro b p w b2 ev h hwf
    rw [MinesweeperBoard.setTileOpenF] at h
    cases h
  | succ n ih =>
    intro b p w b2 ev h hwf
    cases hts : b.stateAtE p with
    | error e =>
      rw [MinesweeperBoard.setTileOpenF, hts] at h
      cases h
    | ok ts =>
      cases hd : b.dataAtE p with
      | error e =>
        rw [MinesweeperBoard.setTileOpenF, hts, hd] at h
        cases h
      | ok d =>
        have hts2 : b.stateAt p = some ts := (b.stateAtE_ok p ts).mp hts
        have hd2 : b.dataAt p = some d := (b.dataAtE_ok p d).mp hd
        simp only [MinesweeperBoard.setTileOpenF, hts, hd] at h
        cases hbo : ts.isOpen with
        | true =>
          simp only [hbo, if_true] at h
          cases h
          exact SetOpenSpec.refl b
        | false =>
          simp only [hbo, Bool.false_eq_true, if_false] at h
          by_cases hdefn : ts.state ≠ TileVisibility.default
          · rw [if_pos hdefn] at h
            cases h
            exact SetOpenSpec.refl b
          · have hdef : ts.state = TileVisibility.default := not_not.mp hdefn
            rw [if_neg hdefn] at h
            split at h
            next =>
              cases h
              exact MinesweeperBoard.openBombSpec b p ts w hwf hts2 hd2
                hbo hdef
            next k =>
              by_cases hk : k ≠ 0
              · rw [if_pos hk] at h
                cases h
                exact MinesweeperBoard.openEmptySpec b p ts w k hwf hts2
                  hd2 hbo hdef
              · rw [if_neg hk] at h
                split at h
                next e heq2 =>
                  cases h
                next b3 evs heq2 =>
                  cases h
                  have s1 := MinesweeperBoard.openEmptySpec b p ts w k hwf
                    hts2 hd2 hbo hdef
                  have s2 := openListF_spec _
                    (fun b q b2 ev hh hwfq => ih b q false b2 ev hh hwfq)
                    _ _ _ _ heq2 (s1.wf hwf)
                  exact s1.trans s2

theorem openStep_closedCount (b : MinesweeperBoard) (p : Point)
    (ts v : TileState) (hwf : b.WF) (hts : b.stateAt p = some ts)
    (hbo : ts.isOpen = false) (hv : v.isOpen = true) :
    (b.setTS p v).closedCount + 1 = b.closedCount := by
  have hb : b.tileData.isInBounds p = true :=
    MinesweeperBoard.stateAt_some_inBounds b p ts hwf hts
  obtain ⟨x, y, rfl, hx, hy⟩ := b.tileData.exists_nat_coords _ hb
  have hts2 : b.tileState.array.get? (x + b.tileData.width * y) = some ts := by
    rw [← MinesweeperBoard.stateAt_index b hwf x y hx hy]
    exact hts
  have harr := MinesweeperBoard.setTS_array b hwf x y v hx hy
  have hcount := countP_set_eq (fun s => !s.isOpen) b.tileState.array
    (x + b.tileData.width * y) v ts hts2
  simp [hbo, hv] at hcount
  rw [MinesweeperBoard.closedCount, MinesweeperBoard.closedCount, harr,
    countClosed, countClosed]
  omega

theorem openListF_congr (P : MinesweeperBoard → Prop)
    (r1 r2 : MinesweeperBoard → Point → BoardResult)
    (hagree : ∀ b q, P b → r1 b q = r2 b q)
    (hpres : ∀ b q b2 ev, r1 b q = Except.ok (b2, ev) → P b → P b2) :
    ∀ (ps : List Point) (b : MinesweeperBoard), P b →
      MinesweeperBoard.openListF r1 b ps =
        MinesweeperBoard.openListF r2 b ps := by
  intro ps
  induction ps with
  | nil =>
    intro b hP
    rfl
  | cons q qs ih =>
    intro b hP
    simp only [MinesweeperBoard.openListF]
    rw [← hagree b q hP]
    cases h1 : r1 b q with
    | error e => simp only [h1]
    | ok r =>
      obtain ⟨b1, ev1⟩ := r
      simp only [h1]
      rw [ih b1 (hpres b q b1 ev1 h1 hP)]

theorem setTileOpenF_stable :
    ∀ (f1 f2 : Nat) (b : MinesweeperBoard) (p : Point) (w : Bool),
      b.WF → b.closedCount < f1 → b.closedCount < f2 →
      MinesweeperBoard.setTileOpenF f1 b p w =
        MinesweeperBoard.setTileOpenF f2 b p w := by
  intro f1
  induction f1 using Nat.strong_induction_on with
  | _ f1 ih =>
    intro f2 b p w hwf h1 h2
    match f1, h1 with
    | n1 + 1, h1 =>
    match f2, h2 with
    | n2 + 1, h2 =>
    rw [MinesweeperBoard.setTileOpenF, MinesweeperBoard.setTileOpenF]
    cases hts : b.stateAtE p with
    | error e => simp only [hts]
    | ok ts =>
      simp only [hts]
      cases hd : b.dataAtE p with
      | error e => simp only [hd]
      | ok d =>
        simp only [hd]
        have hts2 : b.stateAt p = some ts :=
          (b.stateAtE_ok p ts).mp hts
        cases hbo : ts.isOpen with
        | true => simp only [hbo, if_true]
        | false =>
          simp only [hbo, Bool.false_eq_true, if_false]
          by_cases hdefn : ts.state ≠ TileVisibility.default
          · rw [if_pos hdefn, if_pos hdefn]
          · rw [if_neg hdefn, if_neg hdefn]
            have hdef : ts.state = TileVisibility.default := not_not.mp hdefn
            cases d with
            | bomb => rfl
            | empty k =>
              by_cases hk : k ≠ 0
              · simp only [ne_eq, hk, not_false_eq_true, if_true]
              · simp only [ne_eq, hk, if_false, not_true_eq_false,
                  not_false_eq_true]
                have hd2 : b.dataAt p = some (TileData.empty k) :=
                  (b.dataAtE_ok p (TileData.empty k)).mp hd
                have spec := MinesweeperBoard.openEmptySpec b p ts w k hwf
                  hts2 hd2 hbo hdef
                have hclosed := openStep_closedCount b p ts
                  { ts with isOpen := true, wasClicked := w } hwf hts2 hbo rfl
                have hagree : ∀ b3 q, (b3.WF ∧ b3.closedCount < n1 ∧
                    b3.closedCount < n2) →
                    MinesweeperBoard.setTileOpenF n1 b3 q false =
                    MinesweeperBoard.setTileOpenF n2 b3 q false :=
                  fun b3 q hP => ih n1 (by omega) n2 b3 q false hP.1
                    hP.2.1 hP.2.2
                have hpres : ∀ b3 q b4 ev,
                    MinesweeperBoard.setTileOpenF n1 b3 q false =
                      Except.ok (b4, ev) →
                    (b3.WF ∧ b3.closedCount < n1 ∧ b3.closedCount < n2) →
                    (b4.WF ∧ b4.closedCount < n1 ∧ b4.closedCount < n2) := by
                  intro b3 q b4 ev hok hP
                  have sp := setTileOpenF_spec n1 b3 q false b4 ev hok hP.1
                  have hle := sp.closedLe
                  exact ⟨sp.wf hP.1, by omega, by omega⟩
                rw [openListF_congr
                  (fun b3 => b3.WF ∧ b3.closedCount < n1 ∧
                    b3.closedCount < n2)
                  (fun b3 q => MinesweeperBoard.setTileOpenF n1 b3 q false)
                  (fun b3 q => MinesweeperBoard.setTileOpenF n2 b3 q false)
                  hagree hpres]
                refine ⟨spec.wf hwf, ?_, ?_⟩
                · show MinesweeperBoard.closedCount (b.setTS p { ts with isOpen := true, wasClicked := w }) < n1
                  omega
                · show MinesweeperBoard.closedCount (b.setTS p { ts with isOpen := true, wasClicked := w }) < n2
                  omega

namespace MinesweeperBoard

theorem setTileOpenF_open_noop (fuel : Nat) (b : MinesweeperBoard)
    (p : Point) (w : Bool) (ts : TileState) (td : TileData) (hf : 0 < fuel)
    (hts : b.stateAt p = some ts) (htd : b.dataAt p = some td)
    (hbo : ts.isOpen = true) :
    MinesweeperBoard.setTileOpenF fuel b p w = Except.ok (b, []) := by
  match fuel, hf with
  | n + 1, _ =>
    rw [MinesweeperBoard.setTileOpenF]
    rw [(b.stateAtE_ok p ts).mpr hts, (b.dataAtE_ok p td).mpr htd]
    simp only [hbo, if_true]

theorem setTileOpenF_opens :
    ∀ (fuel : Nat) (b : MinesweeperBoard) (p : Point) (w : Bool)
      (b2 : MinesweeperBoard) (ev : List Point) (ts : TileState),
      MinesweeperBoard.setTileOpenF fuel b p w = Except.ok (b2, ev) →
      b.WF → b.stateAt p = some ts → ts.isOpen = false →
      ts.state = TileVisibility.default →
      b2.stateAt p = some { ts with isOpen := true, wasClicked := w } := by
  intro fuel b p w b2 ev ts h hwf hts hbo hdef
  match fuel with
  | 0 =>
    rw [MinesweeperBoard.setTileOpenF] at h
    cases h
  | n + 1 =>
    have hb : b.tileData.isInBounds p = true :=
      stateAt_some_inBounds b p ts hwf hts
    cases hd : b.dataAtE p with
    | error e =>
      rw [MinesweeperBoard.setTileOpenF, (b.stateAtE_ok p ts).mpr hts,
        hd] at h
      cases h
    | ok d =>
      have hd2 := (b.dataAtE_ok p d).mp hd
      simp only [MinesweeperBoard.setTileOpenF,
        (b.stateAtE_ok p ts).mpr hts, hd] at h
      simp only [hbo, Bool.false_eq_true, if_false] at h
      rw [if_neg (not_not_intro hdef)] at h
      split at h
      next =>
        cases h
        exact setTS_stateAt_self b p _ hwf hb
      next k =>
        by_cases hk : k ≠ 0
        · rw [if_pos hk] at h
          cases h
          show (b.setTS p _).stateAt p = _
          exact setTS_stateAt_self b p _ hwf hb
        · rw [if_neg hk] at h
          split at h
          next e heq =>
            cases h
          next b3 evs heq =>
            cases h
            have hopen : (b.setTS p
                { ts with isOpen := true, wasClicked := w }).stateAt p =
                some { ts with isOpen := true, wasClicked := w } :=
              setTS_stateAt_self b p _ hwf hb
            have spec := openListF_spec _
              (fun bq q bq2 evq hh hwfq =>
                setTileOpenF_spec n bq q false bq2 evq hh hwfq)
              _ _ _ _ heq ?_
            rcases spec.stateMono p with heqq |
              ⟨ts2, w2, hts2, hopen2, hdef2, _⟩
            · rw [heqq]
              exact hopen
            · have hts3 : (b.setTS p
                  { ts with isOpen := true, wasClicked := w }).stateAt p =
                  some ts2 := hts2
              rw [hopen] at hts3
              cases hts3
              cases hopen2
            · have spec0 := openEmptySpec b p ts w k hwf hts hd2 hbo hdef
              exact spec0.wf hwf

theorem openListF_ok (rec : MinesweeperBoard → Point → BoardResult)
    (P : MinesweeperBoard → Prop) (Q : Point → Prop)
    (hrec : ∀ b q, P b → Q q →
      ∃ b2 ev, rec b q = Except.ok (b2, ev) ∧ P b2) :
    ∀ (ps : List Point) (b : MinesweeperBoard), P b → (∀ q ∈ ps, Q q) →
      ∃ b2 ev, MinesweeperBoard.openListF rec b ps = Except.ok (b2, ev) := by
  intro ps
  induction ps with
  | nil =>
    intro b hP hQ
    exact ⟨b, [], rfl⟩
  | cons q qs ih =>
    intro b hP hQ
    obtain ⟨b1, ev1, h1, hP1⟩ := hrec b q hP (hQ q (by simp))
    obtain ⟨b2, ev2, h2⟩ := ih b1 hP1 (fun r hr => hQ r (by simp [hr]))
    refine ⟨b2, ev1 ++ ev2, ?_⟩
    simp only [MinesweeperBoard.openListF, h1, h2]

theorem openListF_no_error (rec : MinesweeperBoard → Point → BoardResult)
    (P : MinesweeperBoard → Prop) (Q : Point → Prop)
    (hrec : ∀ b q, P b → Q q →
      ∃ b2 ev, rec b q = Except.ok (b2, ev) ∧ P b2) :
    ∀ (ps : List Point) (b : MinesweeperBoard) (e : BoardErr),
      MinesweeperBoard.openListF rec b ps = Except.error e → P b →
      (∀ q ∈ ps, Q q) → False := by
  intro ps b e herr hP hQ
  obtain ⟨b2, ev, hok⟩ := openListF_ok rec P Q hrec ps b hP hQ
  rw [hok] at herr
  cases herr

theorem setTileOpenF_ok :
    ∀ (fuel : Nat) (b : MinesweeperBoard) (p : Point) (w : Bool),
      b.WF → b.tileData.isInBounds p = true → b.closedCount < fuel →
      ∃ b2 ev, MinesweeperBoard.setTileOpenF fuel b p w =
        Except.ok (b2, ev) := by
  intro fuel
  induction fuel using Nat.strong_induction_on with
  | _ fuel ih =>
    intro b p w hwf hb hfuel
    match fuel, hfuel with
    | n + 1, hfuel =>
    cases hres : MinesweeperBoard.setTileOpenF (n + 1) b p w with
    | ok r =>
      obtain ⟨b2, ev⟩ := r
      exact ⟨b2, ev, rfl⟩
    | error e =>
      exfalso
      obtain ⟨h1, h2, h3, h4, h5, h6⟩ := hwf
      obtain ⟨ts, hts⟩ : ∃ ts, b.stateAt p = some ts := by
        apply Grid.getOrNull_isSome
        · rw [h6, h5, h3, h4]
        · rw [bounds_agree b ⟨h1, h2, h3, h4, h5, h6⟩ p]
          exact hb
      obtain ⟨d, hd⟩ : ∃ d, b.dataAt p = some d :=
        Grid.getOrNull_isSome b.tileData p h5 hb
      simp only [MinesweeperBoard.setTileOpenF,
        (b.stateAtE_ok p ts).mpr hts, (b.dataAtE_ok p d).mpr hd] at hres
      cases hbo : ts.isOpen with
      | true =>
        simp only [hbo, if_true] at hres
        cases hres
      | false =>
        simp only [hbo, Bool.false_eq_true, if_false] at hres
        by_cases hdefn : ts.state ≠ TileVisibility.default
        · rw [if_pos hdefn] at hres
          cases hres
        · rw [if_neg hdefn] at hres
          have hdef : ts.state = TileVisibility.default := not_not.mp hdefn
          split at hres
          next =>
            cases hres
          next k =>
            by_cases hk : k ≠ 0
            · rw [if_pos hk] at hres
              cases hres
            · rw [if_neg hk] at hres
              split at hres
              next e2 heq =>
                have spec0 := openEmptySpec b p ts w k
                  ⟨h1, h2, h3, h4, h5, h6⟩ hts hd hbo hdef
                have hclosed := openStep_closedCount b p ts
                  { ts with isOpen := true, wasClicked := w }
                  ⟨h1, h2, h3, h4, h5, h6⟩ hts hbo rfl
                have hrec : ∀ bq q, (bq.WF ∧ bq.closedCount < n ∧
                    bq.tileData = b.tileData) →
                    (b.tileData.isInBounds q = true) →
                    ∃ bq2 evq, MinesweeperBoard.setTileOpenF n bq q false =
                      Except.ok (bq2, evq) ∧
                      (bq2.WF ∧ bq2.closedCount < n ∧
                        bq2.tileData = b.tileData) := by
                  intro bq q hP hQ
                  obtain ⟨bq2, evq, hokq⟩ := ih n (by omega) bq q false hP.1
                    (by rw [hP.2.2]; exact hQ) hP.2.1
                  have sp := setTileOpenF_spec n bq q false bq2 evq hokq hP.1
                  have hle := sp.closedLe
                  exact ⟨bq2, evq, hokq, sp.wf hP.1,
                    by have := hP.2.1; omega, sp.dataEq.trans hP.2.2⟩
                refine openListF_no_error _ _ _ hrec _ _ _ heq ?_ ?_
                · refine ⟨spec0.wf ⟨h1, h2, h3, h4, h5, h6⟩, ?_, rfl⟩
                  show MinesweeperBoard.closedCount (b.setTS p { ts with isOpen := true, wasClicked := w }) < n
                  omega
                · intro q hq
                  rw [List.mem_filter] at hq
                  exact hq.2
              next b3 evs heq =>
                cases hres

end MinesweeperBoard

namespace MinesweeperBoard

theorem setTS_openEmptyCount_eq (b : MinesweeperBoard) (p : Point)
    (s v : TileState) (hwf : b.WF) (hts : b.stateAt p = some s)
    (hiso : v.isOpen = s.isOpen) :
    (b.setTS p v).openEmptyCount = b.openEmptyCount := by
  have hwf2 := hwf
  obtain ⟨h1, h2, h3, h4, h5, h6⟩ := hwf2
  have hb := stateAt_some_inBounds b p s hwf hts
  obtain ⟨x, y, rfl, hx, hy⟩ := b.tileData.exists_nat_coords _ hb
  obtain ⟨d, hd⟩ : ∃ d, b.dataAt { x := (x : Int), y := (y : Int) } =
      some d := Grid.getOrNull_isSome b.tileData _ h5 hb
  have hts2 : b.tileState.array.get? (x + b.tileData.width * y) = some s := by
    rw [← stateAt_index b hwf x y hx hy]
    exact hts
  have hd2 : b.tileData.array.get? (x + b.tileData.width * y) = some d := by
    rw [← dataAt_index b x y hx hy]
    exact hd
  have harr := setTS_array b hwf x y v hx hy
  have hcount := countOpenEmpty_set b.tileData.array b.tileState.array
    (x + b.tileData.width * y) v d s hd2 hts2
  rw [hiso] at hcount
  rw [openEmptyCount, openEmptyCount]
  show countOpenEmpty b.tileData.array _ = _
  rw [harr]
  omega

theorem checkWinLoop_spec :
    ∀ (ps : List Point) (b : MinesweeperBoard),
      b.WF → ps.Nodup → (∀ q ∈ ps, b.tileData.isInBounds q = true) →
      ∃ b2 ev, b.checkWinLoop ps = Except.ok (b2, ev) ∧
        b2.tileData = b.tileData ∧ b2.boardState = b.boardState ∧
        b2.bombCount = b.bombCount ∧
        b2.tilesLeftToOpenToWin = b.tilesLeftToOpenToWin ∧
        b2.tileState.width = b.tileState.width ∧
        b2.tileState.height = b.tileState.height ∧
        b2.tileState.array.length = b.tileState.array.length ∧
        b2.openEmptyCount = b.openEmptyCount ∧
        (∀ q s d, b.stateAt q = some s → b.dataAt q = some d →
          b2.stateAt q = some (if q ∈ ps then winFlagTS d s else s)) ∧
        (∀ q, b.stateAt q = none → b2.stateAt q = none) ∧
        ev = ps.filter (fun q => winFlagp b q) := by
  intro ps
  induction ps with
  | nil =>
    intro b hwf hnd hin
    refine ⟨b, [], rfl, rfl, rfl, rfl, rfl, rfl, rfl, rfl, rfl, ?_, ?_, rfl⟩
    · intro q s d hs hd
      simp [hs]
    · intro q h
      exact h
  | cons p ps ih =>
    intro b hwf hnd hin
    have hwf2 := hwf
    obtain ⟨h1, h2, h3, h4, h5, h6⟩ := hwf2
    rw [List.nodup_cons] at hnd
    obtain ⟨hpn, hnd2⟩ := hnd
    have hbp : b.tileData.isInBounds p = true := hin p (by simp)
    obtain ⟨d, hd⟩ : ∃ d, b.dataAt p = some d :=
      Grid.getOrNull_isSome b.tileData p h5 hbp
    obtain ⟨s, hs⟩ : ∃ s, b.stateAt p = some s := by
      apply Grid.getOrNull_isSome
      · rw [h6, h5, h3, h4]
      · rw [bounds_agree b hwf p]
        exact hbp
    by_cases hdb : d ≠ TileData.bomb
    · obtain ⟨b2, ev, hloop, f1, f2, f3, f4, f5, f6, f7, f8, hpt, hnone, hev⟩ :=
        ih b hwf hnd2 (fun q hq => hin q (by simp [hq]))
      refine ⟨b2, ev, ?_, f1, f2, f3, f4, f5, f6, f7, f8, ?_, hnone, ?_⟩
      · simp only [checkWinLoop, (b.dataAtE_ok p d).mpr hd]
        rw [if_pos hdb]
        exact hloop
      · intro q s2 d2 hs2 hd2
        rw [hpt q s2 d2 hs2 hd2]
        by_cases hqp : q = p
        · subst hqp
          rw [hd2] at hd
          cases hd
          simp only [List.mem_cons, true_or, if_true,
            if_neg (by exact fun hmem => hpn (by simpa using hmem) : ¬ q ∈ ps)]
          rw [winFlagTS, if_neg]
          rintro ⟨hbomb, _⟩
          exact hdb hbomb
        · simp [List.mem_cons, hqp]
      · rw [hev, List.filter_cons_of_neg]
        simp only [winFlagp, hd, hs]
        simp [hdb]
    · have hdb2 : d = TileData.bomb := not_not.mp hdb
      by_cases hsf : s.state = TileVisibility.flag
      · obtain ⟨b2, ev, hloop, f1, f2, f3, f4, f5, f6, f7, f8, hpt, hnone, hev⟩ :=
          ih b hwf hnd2 (fun q hq => hin q (by simp [hq]))
        refine ⟨b2, ev, ?_, f1, f2, f3, f4, f5, f6, f7, f8, ?_, hnone, ?_⟩
        · simp only [checkWinLoop, (b.dataAtE_ok p d).mpr hd,
            (b.stateAtE_ok p s).mpr hs]
          rw [if_neg (not_not_intro hdb2), if_pos hsf]
          exact hloop
        · intro q s2 d2 hs2 hd2
          rw [hpt q s2 d2 hs2 hd2]
          by_cases hqp : q = p
          · subst hqp
            rw [hd2] at hd
            cases hd
            rw [hs2] at hs
            cases hs
            simp only [List.mem_cons, true_or, if_true,
              if_neg (by exact fun hmem => hpn (by simpa using hmem) :
                ¬ q ∈ ps)]
            rw [winFlagTS, if_neg]
            rintro ⟨_, hnf⟩
            exact hnf hsf
          · simp [List.mem_cons, hqp]
        · rw [hev, List.filter_cons_of_neg]
          simp only [winFlagp, hd, hs]
          simp [hsf]
      · have hwfb := setTS_WF b p { s with state := TileVisibility.flag } hwf
        obtain ⟨b2, ev, hloop, f1, f2, f3, f4, f5, f6, f7, f8, hpt, hnone, hev⟩ :=
          ih (b.setTS p { s with state := TileVisibility.flag }) hwfb hnd2
            (fun q hq => hin q (by simp [hq]))
        have hself : (b.setTS p
            { s with state := TileVisibility.flag }).stateAt p =
            some { s with state := TileVisibility.flag } :=
          setTS_stateAt_self b p _ hwf hbp
        refine ⟨b2, p :: ev, ?_, f1, f2, f3, f4,
          f5.trans (setTS_ts_width b p _), f6.trans (setTS_ts_height b p _),
          f7.trans (setTS_ts_length b p _),
          f8.trans (setTS_openEmptyCount_eq b p s _ hwf hs rfl), ?_, ?_, ?_⟩
        · simp only [checkWinLoop, (b.dataAtE_ok p d).mpr hd,
            (b.stateAtE_ok p s).mpr hs]
          rw [if_neg (not_not_intro hdb2), if_neg hsf, hloop]
        · intro q s2 d2 hs2 hd2
          by_cases hqp : q = p
          · have hdd : d2 = d := by
              rw [hqp, hd] at hd2
              exact (Option.some.inj hd2).symm
            have hss : s2 = s := by
              rw [hqp, hs] at hs2
              exact (Option.some.inj hs2).symm
            have hstep := hpt p { s with state := TileVisibility.flag } d
              hself (by exact hd)
            rw [hqp, hdd, hss, hstep, if_neg hpn,
              if_pos (show p ∈ p :: ps by simp),
              winFlagTS, if_pos ⟨hdb2, hsf⟩]
          · have hkeep : (b.setTS p
                { s with state := TileVisibility.flag }).stateAt q =
                b.stateAt q := setTS_stateAt_ne b p q _ hqp
            have := hpt q s2 d2 (by rw [hkeep]; exact hs2) (by exact hd2)
            rw [this]
            simp [List.mem_cons, hqp]
        · intro q hq
          have hqp : q ≠ p := by
            intro he
            rw [he, hs] at hq
            cases hq
          apply hnone
          rw [setTS_stateAt_ne b p q _ hqp]
          exact hq
        · rw [hev, List.filter_cons_of_pos]
          · congr 1
            apply List.filter_congr
            intro q hq
            have hqp : q ≠ p := fun he => hpn (he ▸ hq)
            simp only [winFlagp, setTS_dataAt,
              setTS_stateAt_ne b p q _ hqp]
          · simp only [winFlagp, hd, hs]
            simp [hdb2, hsf]

end MinesweeperBoard

namespace MinesweeperBoard

theorem handleLoseLoop_spec :
    ∀ (ps : List Point) (b : MinesweeperBoard),
      b.WF → ps.Nodup → (∀ q ∈ ps, b.tileData.isInBounds q = true) →
      ∃ b2 ev, b.handleLoseLoop ps = Except.ok (b2, ev) ∧
        b2.tileData = b.tileData ∧ b2.boardState = b.boardState ∧
        b2.bombCount = b.bombCount ∧
        b2.tilesLeftToOpenToWin = b.tilesLeftToOpenToWin ∧
        b2.tileState.width = b.tileState.width ∧
        b2.tileState.height = b.tileState.height ∧
        b2.tileState.array.length = b.tileState.array.length ∧
        (∀ q s d, b.stateAt q = some s → b.dataAt q = some d →
          b2.stateAt q = some (if q ∈ ps then loseTS d s else s)) ∧
        (∀ q, b.stateAt q = none → b2.stateAt q = none) ∧
        ev = ps.filter (fun q => losep b q) := by
  intro ps
  induction ps with
  | nil =>
    intro b hwf hnd hin
    refine ⟨b, [], rfl, rfl, rfl, rfl, rfl, rfl, rfl, rfl, ?_, ?_, rfl⟩
    · intro q s d hs hd
      simp [hs]
    · intro q h
      exact h
  | cons p ps ih =>
    intro b hwf hnd hin
    have hwf2 := hwf
    obtain ⟨h1, h2, h3, h4, h5, h6⟩ := hwf2
    rw [List.nodup_cons] at hnd
    obtain ⟨hpn, hnd2⟩ := hnd
    have hbp : b.tileData.isInBounds p = true := hin p (by simp)
    obtain ⟨d, hd⟩ : ∃ d, b.dataAt p = some d :=
      Grid.getOrNull_isSome b.tileData p h5 hbp
    obtain ⟨s, hs⟩ : ∃ s, b.stateAt p = some s := by
      apply Grid.getOrNull_isSome
      · rw [h6, h5, h3, h4]
      · rw [bounds_agree b hwf p]
        exact hbp
    by_cases hC : ¬(d = TileData.bomb ∧ s.state = TileVisibility.default) ∧
        ¬(d ≠ TileData.bomb ∧ s.state = TileVisibility.flag)
    · obtain ⟨b2, ev, hloop, f1, f2, f3, f4, f5, f6, f7, hpt, hnone, hev⟩ :=
        ih b hwf hnd2 (fun q hq => hin q (by simp [hq]))
      refine ⟨b2, ev, ?_, f1, f2, f3, f4, f5, f6, f7, ?_, hnone, ?_⟩
      · simp only [handleLoseLoop, (b.dataAtE_ok p d).mpr hd,
          (b.stateAtE_ok p s).mpr hs]
        rw [if_pos hC]
        exact hloop
      · intro q s2 d2 hs2 hd2
        rw [hpt q s2 d2 hs2 hd2]
        by_cases hqp : q = p
        · have hdd : d2 = d := by
            rw [hqp, hd] at hd2
            exact (Option.some.inj hd2).symm
          have hss : s2 = s := by
            rw [hqp, hs] at hs2
            exact (Option.some.inj hs2).symm
          rw [hqp, hdd, hss, if_neg hpn,
            if_pos (show p ∈ p :: ps by simp), loseTS, if_neg]
          rw [not_or]
          exact hC
        · simp [List.mem_cons, hqp]
      · rw [hev, List.filter_cons_of_neg]
        simp only [losep, hd, hs, decide_eq_true_eq, not_or]
        exact hC
    · have hAB : (d = TileData.bomb ∧ s.state = TileVisibility.default) ∨
          (d ≠ TileData.bomb ∧ s.state = TileVisibility.flag) := by
        by_contra hcon
        rw [not_or] at hcon
        exact hC hcon
      have hwfb := setTS_WF b p { s with isOpen := true } hwf
      obtain ⟨b2, ev, hloop, f1, f2, f3, f4, f5, f6, f7, hpt, hnone, hev⟩ :=
        ih (b.setTS p { s with isOpen := true }) hwfb hnd2
          (fun q hq => hin q (by simp [hq]))
      have hself : (b.setTS p { s with isOpen := true }).stateAt p =
          some { s with isOpen := true } :=
        setTS_stateAt_self b p _ hwf hbp
      refine ⟨b2, p :: ev, ?_, f1, f2, f3, f4,
        f5.trans (setTS_ts_width b p _), f6.trans (setTS_ts_height b p _),
        f7.trans (setTS_ts_length b p _), ?_, ?_, ?_⟩
      · simp only [handleLoseLoop, (b.dataAtE_ok p d).mpr hd,
          (b.stateAtE_ok p s).mpr hs]
        rw [if_neg hC, hloop]
      · intro q s2 d2 hs2 hd2
        by_cases hqp : q = p
        · have hdd : d2 = d := by
            rw [hqp, hd] at hd2
            exact (Option.some.inj hd2).symm
          have hss : s2 = s := by
            rw [hqp, hs] at hs2
            exact (Option.some.inj hs2).symm
          have hstep := hpt p { s with isOpen := true } d hself (by exact hd)
          rw [hqp, hdd, hss, hstep, if_neg hpn,
            if_pos (show p ∈ p :: ps by simp), loseTS, if_pos hAB]
        · have hkeep : (b.setTS p { s with isOpen := true }).stateAt q =
              b.stateAt q := setTS_stateAt_ne b p q _ hqp
          have := hpt q s2 d2 (by rw [hkeep]; exact hs2) (by exact hd2)
          rw [this]
          simp [List.mem_cons, hqp]
      · intro q hq
        have hqp : q ≠ p := by
          intro he
          rw [he, hs] at hq
          cases hq
        apply hnone
        rw [setTS_stateAt_ne b p q _ hqp]
        exact hq
      · rw [hev, List.filter_cons_of_pos]
        · congr 1
          apply List.filter_congr
          intro q hq
          have hqp : q ≠ p := fun he => hpn (he ▸ hq)
          simp only [losep, setTS_dataAt, setTS_stateAt_ne b p q _ hqp]
        · simp only [losep, hd, hs, decide_eq_true_eq]
          exact hAB

end MinesweeperBoard

namespace MinesweeperBoard

theorem filterTS_ok (b : MinesweeperBoard) (pred : TileState → Bool) :
    ∀ ps : List Point, (∀ q ∈ ps, ∃ s, b.stateAt q = some s) →
      b.filterTS pred ps = Except.ok (ps.filter (fun q =>
        match b.stateAt q with | some s => pred s | none => false)) := by
  intro ps
  induction ps with
  | nil =>
    intro h
    rfl
  | cons q qs ih =>
    intro h
    obtain ⟨s, hs⟩ := h q (by simp)
    simp only [filterTS, (b.stateAtE_ok q s).mpr hs,
      ih (fun r hr => h r (by simp [hr]))]
    rw [List.filter_cons]
    by_cases hp : pred s
    · simp [hs, hp]
    · simp [hs, hp]

theorem findBomb_ok (b : MinesweeperBoard) :
    ∀ ps : List Point, (∀ q ∈ ps, ∃ d, b.dataAt q = some d) →
      b.findBomb ps = Except.ok (ps.any (fun q =>
        decide (b.dataAt q = some TileData.bomb))) := by
  intro ps
  induction ps with
  | nil =>
    intro h
    rfl
  | cons q qs ih =>
    intro h
    obtain ⟨d, hd⟩ := h q (by simp)
    simp only [findBomb, (b.dataAtE_ok q d).mpr hd]
    by_cases hb : d = TileData.bomb
    · subst hb
      simp [hd]
    · rw [if_neg hb, ih (fun r hr => h r (by simp [hr]))]
      simp [hd, hb]

theorem closedCount_lt_fuel (b : MinesweeperBoard) :
    b.closedCount < b.tileState.array.length + 1 :=
  Nat.lt_succ_of_le (List.countP_le_length _)

theorem setTileOpen_ok (b : MinesweeperBoard) (p : Point) (w : Bool)
    (hwf : b.WF) (hb : b.tileData.isInBounds p = true) :
    ∃ b2 ev, b.setTileOpen p w = Except.ok (b2, ev) :=
  setTileOpenF_ok (b.tileState.array.length + 1) b p w hwf hb
    (closedCount_lt_fuel b)

theorem setTileOpen_spec (b : MinesweeperBoard) (p : Point) (w : Bool)
    (b2 : MinesweeperBoard) (ev : List Point)
    (h : b.setTileOpen p w = Except.ok (b2, ev)) (hwf : b.WF) :
    SetOpenSpec b b2 :=
  setTileOpenF_spec (b.tileState.array.length + 1) b p w b2 ev h hwf

theorem setTileOpen_opens (b : MinesweeperBoard) (p : Point) (w : Bool)
    (b2 : MinesweeperBoard) (ev : List Point) (ts : TileState)
    (h : b.setTileOpen p w = Except.ok (b2, ev)) (hwf : b.WF)
    (hts : b.stateAt p = some ts) (hbo : ts.isOpen = false)
    (hdef : ts.state = TileVisibility.default) :
    b2.stateAt p = some { ts with isOpen := true, wasClicked := w } :=
  setTileOpenF_opens (b.tileState.array.length + 1) b p w b2 ev ts h hwf
    hts hbo hdef

end MinesweeperBoard

theorem SetOpenSpec.open_preserved {a b : MinesweeperBoard}
    (sp : SetOpenSpec a b) (q : Point) (s : TileState)
    (h : a.stateAt q = some s) (ho : s.isOpen = true) :
    b.stateAt q = some s := by
  rcases sp.stateMono q with heq | ⟨ts, w, hts, hopen, hdef, _⟩
  · rw [heq, h]
  · rw [h] at hts
    cases hts
    rw [ho] at hopen
    cases hopen

namespace MinesweeperBoard

theorem openListF_opens :
    ∀ (ps : List Point) (b b2 : MinesweeperBoard) (ev : List Point),
      MinesweeperBoard.openListF
        (fun bq q => bq.setTileOpen q true) b ps = Except.ok (b2, ev) →
      b.WF →
      ∀ q ∈ ps, ∀ s, b.stateAt q = some s → s.isOpen = false →
        s.state = TileVisibility.default →
        ∃ s2, b2.stateAt q = some s2 ∧ s2.isOpen = true := by
  intro ps
  induction ps with
  | nil =>
    intro b b2 ev h hwf q hq
    cases hq
  | cons r rs ih =>
    intro b b2 ev h hwf q hq s hs hbo hdef
    simp only [MinesweeperBoard.openListF] at h
    cases h1 : b.setTileOpen r true with
    | error e =>
      simp only [h1] at h
      cases h
    | ok res =>
      obtain ⟨b1, ev1⟩ := res
      simp only [h1] at h
      cases h2 : MinesweeperBoard.openListF
          (fun bq q => bq.setTileOpen q true) b1 rs with
      | error e =>
        rw [h2] at h
        cases h
      | ok res2 =>
        obtain ⟨b3, ev2⟩ := res2
        rw [h2] at h
        cases h
        have sp1 := setTileOpen_spec b r true b1 ev1 h1 hwf
        have sp2 := openListF_spec _
          (fun bq q bq2 evq hh hwfq => setTileOpen_spec bq q true bq2 evq
            hh hwfq) _ _ _ _ h2 (sp1.wf hwf)
        rcases List.mem_cons.mp hq with rfl | hq2
        · have hopen1 : b1.stateAt q =
              some { s with isOpen := true, wasClicked := true } :=
            setTileOpen_opens b q true b1 ev1 s h1 hwf hs hbo hdef
          refine ⟨{ s with isOpen := true, wasClicked := true }, ?_, rfl⟩
          exact sp2.open_preserved q _ hopen1 rfl
        · rcases sp1.stateMono q with heq | ⟨ts, w, hts, hopen, hdef2, hflip⟩
          · exact ih b1 _ ev2 h2 (sp1.wf hwf) q hq2 s (heq.trans hs)
              hbo hdef
          · refine ⟨{ ts with isOpen := true, wasClicked := w }, ?_, rfl⟩
            exact sp2.open_preserved q _ hflip rfl

end MinesweeperBoard

namespace MinesweeperBoard

theorem assertB_pass (c : Prop) [Decidable c] (msg : String)
    (b : MinesweeperBoard) (h : c) :
    assertB c msg b = Except.ok () := by
  rw [assertB, if_pos h]

theorem checkWin_nonzero (b : MinesweeperBoard)
    (h0 : 0 ≤ b.tilesLeftToOpenToWin) (hne : b.tilesLeftToOpenToWin ≠ 0) :
    b.checkWin = Except.ok (b, []) := by
  simp only [checkWin,
    assertB_pass (0 ≤ b.tilesLeftToOpenToWin) _ b h0]
  rw [if_pos hne]

theorem checkWin_zero (b : MinesweeperBoard) (hwf : b.WF)
    (hz : b.tilesLeftToOpenToWin = 0) :
    ∃ b2 ev, b.checkWin = Except.ok (b2, ev) ∧
      b2.boardState = BoardState.won ∧
      b2.tileData = b.tileData ∧ b2.bombCount = b.bombCount ∧
      b2.tilesLeftToOpenToWin = b.tilesLeftToOpenToWin ∧
      b2.tileState.width = b.tileState.width ∧
      b2.tileState.height = b.tileState.height ∧
      b2.tileState.array.length = b.tileState.array.length ∧
      b2.openEmptyCount = b.openEmptyCount ∧
      (∀ q s d, b.stateAt q = some s → b.dataAt q = some d →
        b2.stateAt q = some (winFlagTS d s)) ∧
      (∀ q, b.stateAt q = none → b2.stateAt q = none) ∧
      ev = b.tileData.points.filter (fun q => winFlagp b q) := by
  obtain ⟨b2, ev, hloop, f1, f2, f3, f4, f5, f6, f7, f8, hpt, hnone, hev⟩ :=
    checkWinLoop_spec b.tileData.points b hwf (Grid.points_nodup _)
      (fun q hq => (Grid.mem_points _ q).mp hq)
  refine ⟨b2.setBoardState BoardState.won, ev, ?_, rfl, f1, f3, f4, f5, f6,
    f7, f8, ?_, hnone, hev⟩
  · simp only [checkWin, assertB_pass (0 ≤ b.tilesLeftToOpenToWin) _ b
      (by rw [hz]), if_neg (not_not_intro hz), hloop]
  · intro q s d hs hd
    have hq : q ∈ b.tileData.points := by
      rw [Grid.mem_points]
      exact stateAt_some_inBounds b q s hwf hs
    have := hpt q s d hs hd
    rw [if_pos hq] at this
    exact this

theorem handleLose_spec (b : MinesweeperBoard) (hwf : b.WF) :
    ∃ b2 ev, b.handleLose = Except.ok (b2, ev) ∧
      b2.boardState = BoardState.lost ∧
      b2.tileData = b.tileData ∧ b2.bombCount = b.bombCount ∧
      b2.tilesLeftToOpenToWin = b.tilesLeftToOpenToWin ∧
      b2.tileState.width = b.tileState.width ∧
      b2.tileState.height = b.tileState.height ∧
      b2.tileState.array.length = b.tileState.array.length ∧
      (∀ q s d, b.stateAt q = some s → b.dataAt q = some d →
        b2.stateAt q = some (loseTS d s)) ∧
      (∀ q, b.stateAt q = none → b2.stateAt q = none) ∧
      ev = b.tileData.points.filter (fun q => losep b q) := by
  obtain ⟨b2, ev, hloop, f1, f2, f3, f4, f5, f6, f7, hpt, hnone, hev⟩ :=
    handleLoseLoop_spec b.tileData.points b hwf (Grid.points_nodup _)
      (fun q hq => (Grid.mem_points _ q).mp hq)
  refine ⟨b2.setBoardState BoardState.lost, ev, ?_, rfl, f1, f3, f4, f5, f6,
    f7, ?_, hnone, hev⟩
  · simp only [handleLose, hloop]
  · intro q s d hs hd
    have hq : q ∈ b.tileData.points := by
      rw [Grid.mem_points]
      exact stateAt_some_inBounds b q s hwf hs
    have := hpt q s d hs hd
    rw [if_pos hq] at this
    exact this

theorem setBoardState_self (b : MinesweeperBoard) (s : BoardState)
    (h : b.boardState = s) : b.setBoardState s = b := by
  cases b
  simp only at h
  rw [setBoardState]
  simp only [h]

theorem changeTileState_terminal (b : MinesweeperBoard) (p : Point)
    (h : b.boardState = BoardState.won ∨ b.boardState = BoardState.lost) :
    b.changeTileState p = Except.ok (b, []) := by
  have hns : ¬ b.boardState = BoardState.not_started := by
    rcases h with h | h <;> rw [h] <;> intro hcon <;> cases hcon
  have hna : ¬ b.boardState = BoardState.active := by
    rcases h with h | h <;> rw [h] <;> intro hcon <;> cases hcon
  rw [changeTileState]
  simp only [if_neg hns]
  rw [if_pos hna]

theorem clickTile_terminal (b : MinesweeperBoard) (p : Point)
    (h : b.boardState = BoardState.won ∨ b.boardState = BoardState.lost) :
    b.clickTile p = Except.ok (b, []) := by
  have hns : ¬ b.boardState = BoardState.not_started := by
    rcases h with h | h <;> rw [h] <;> intro hcon <;> cases hcon
  have hna : ¬ b.boardState = BoardState.active := by
    rcases h with h | h <;> rw [h] <;> intro hcon <;> cases hcon
  rw [clickTile]
  simp only [if_neg hns]
  rw [if_pos hna]

end MinesweeperBoard

namespace MinesweeperBoard

theorem setBoardState_boardState (b : MinesweeperBoard) (s : BoardState) :
    (b.setBoardState s).boardState = s := rfl

theorem lazyActive_eq (b : MinesweeperBoard)
    (hst : b.boardState = BoardState.active ∨
      b.boardState = BoardState.not_started) :
    (if b.boardState = BoardState.not_started then
      b.setBoardState BoardState.active else b) =
      b.setBoardState BoardState.active := by
  rcases hst with h | h
  · rw [if_neg (by rw [h]; intro hcon; cases hcon)]
    exact (setBoardState_self b _ h).symm
  · rw [if_pos h]

theorem changeTileState_spec (b : MinesweeperBoard) (p : Point)
    (ts : TileState)
    (hst : b.boardState = BoardState.active ∨
      b.boardState = BoardState.not_started)
    (hts : b.stateAt p = some ts) :
    b.changeTileState p =
      if ts.isOpen = true then
        Except.ok (b.setBoardState BoardState.active, ([] : List Point))
      else
        Except.ok ((b.setBoardState BoardState.active).setTS p
          { ts with state := match ts.state with
              | TileVisibility.default => TileVisibility.flag
              | TileVisibility.flag => TileVisibility.default }, [p]) := by
  have htsA : (b.setBoardState BoardState.active).stateAtE p =
      Except.ok ts :=
    ((b.setBoardState BoardState.active).stateAtE_ok p ts).mpr hts
  simp only [changeTileState, lazyActive_eq b hst, htsA,
    setBoardState_boardState]
  cases hbo : ts.isOpen with
  | true => simp [hbo]
  | false => simp [hbo]

theorem changeTileState_oob (b : MinesweeperBoard) (p : Point)
    (hst : b.boardState = BoardState.active ∨
      b.boardState = BoardState.not_started)
    (hnb : b.tileState.isInBounds p = false) :
    b.changeTileState p = Except.error
      ("Tried to get a point on a grid that is out of bounds",
        b.setBoardState BoardState.active) := by
  have hnone : (b.setBoardState BoardState.active).stateAt p = none :=
    Grid.getOrNull_out _ p hnb
  have htsA : (b.setBoardState BoardState.active).stateAtE p =
      Except.error
        ("Tried to get a point on a grid that is out of bounds",
          b.setBoardState BoardState.active) := by
    rw [stateAtE]
    rw [show (b.setBoardState BoardState.active).tileState.getOrNull p =
      none from hnone]
  simp only [changeTileState, lazyActive_eq b hst, htsA,
    setBoardState_boardState]
  simp

theorem clickTile_oob (b : MinesweeperBoard) (p : Point)
    (hst : b.boardState = BoardState.active ∨
      b.boardState = BoardState.not_started)
    (hnb : b.tileState.isInBounds p = false) :
    b.clickTile p = Except.error
      ("Tried to get a point on a grid that is out of bounds",
        b.setBoardState BoardState.active) := by
  have hnone : (b.setBoardState BoardState.active).stateAt p = none :=
    Grid.getOrNull_out _ p hnb
  have htsA : (b.setBoardState BoardState.active).stateAtE p =
      Except.error
        ("Tried to get a point on a grid that is out of bounds",
          b.setBoardState BoardState.active) := by
    rw [stateAtE]
    rw [show (b.setBoardState BoardState.active).tileState.getOrNull p =
      none from hnone]
  simp only [clickTile, lazyActive_eq b hst, htsA,
    setBoardState_boardState]
  simp

end MinesweeperBoard

namespace MinesweeperBoard

theorem WF_transfer {a b : MinesweeperBoard} (hwf : a.WF)
    (hdata : b.tileData = a.tileData)
    (hw : b.tileState.width = a.tileState.width)
    (hh : b.tileState.height = a.tileState.height)
    (hl : b.tileState.array.length = a.tileState.array.length) : b.WF := by
  obtain ⟨h1, h2, h3, h4, h5, h6⟩ := hwf
  rw [MinesweeperBoard.WF, hdata, hw, hh, hl]
  exact ⟨h1, h2, h3, h4, h5, h6⟩

theorem openEmpty_le_empty (b : MinesweeperBoard) :
    b.openEmptyCount ≤ b.emptyCount :=
  countOpenEmpty_le _ _

theorem Inv_of_preinv (b : MinesweeperBoard) (hwf : b.WF)
    (heq : b.CounterInv) : b.Inv := by
  refine ⟨hwf, ?_, fun _ => heq⟩
  rw [heq]
  have := openEmpty_le_empty b
  omega

theorem changeTileState_inv (b : MinesweeperBoard) (p : Point)
    (b2 : MinesweeperBoard) (ev : List Point)
    (h : b.changeTileState p = Except.ok (b2, ev)) (hI : b.Inv) :
    b2.Inv ∧ b2.tileData = b.tileData := by
  obtain ⟨hwf, h0, heqc⟩ := hI
  cases hbs : b.boardState with
  | won =>
    rw [changeTileState_terminal b p (Or.inl hbs)] at h
    cases h
    exact ⟨⟨hwf, h0, heqc⟩, rfl⟩
  | lost =>
    rw [changeTileState_terminal b p (Or.inr hbs)] at h
    cases h
    exact ⟨⟨hwf, h0, heqc⟩, rfl⟩
  | active =>
    have heq : b.CounterInv := heqc (by rw [hbs]; intro hcon; cases hcon)
    cases hso : b.stateAt p with
    | none =>
      rw [changeTileState_oob b p (Or.inl hbs) ?_] at h
      · cases h
      · by_cases hib : b.tileState.isInBounds p = true
        · exfalso
          obtain ⟨hv, hsv⟩ := Grid.getOrNull_isSome b.tileState p
            (by obtain ⟨h1, h2, h3, h4, h5, h6⟩ := hwf; rw [h6, h5, h3, h4])
            hib
          rw [stateAt] at hso
          rw [hso] at hsv
          cases hsv
        · simpa using hib
    | some ts =>
      rw [changeTileState_spec b p ts (Or.inl hbs) hso] at h
      cases hbo : ts.isOpen with
      | true =>
        rw [if_pos hbo] at h
        cases h
        rw [setBoardState_self b _ hbs]
        exact ⟨⟨hwf, h0, heqc⟩, rfl⟩
      | false =>
        rw [if_neg (by rw [hbo]; intro hcon; cases hcon)] at h
        cases h
        rw [setBoardState_self b _ hbs]
        refine ⟨Inv_of_preinv _ (setTS_WF b p _ hwf) ?_, rfl⟩
        show _ = _
        rw [setTS_counter, setTS_openEmptyCount_eq b p ts
          { ts with state := match ts.state with
              | TileVisibility.default => TileVisibility.flag
              | TileVisibility.flag => TileVisibility.default }
          hwf hso rfl]
        exact heq
  | not_started =>
    have heq : b.CounterInv := heqc (by rw [hbs]; intro hcon; cases hcon)
    have hwfA : (b.setBoardState BoardState.active).WF := hwf
    have heqA : (b.setBoardState BoardState.active).CounterInv := heq
    cases hso : b.stateAt p with
    | none =>
      rw [changeTileState_oob b p (Or.inr hbs) ?_] at h
      · cases h
      · by_cases hib : b.tileState.isInBounds p = true
        · exfalso
          obtain ⟨hv, hsv⟩ := Grid.getOrNull_isSome b.tileState p
            (by obtain ⟨h1, h2, h3, h4, h5, h6⟩ := hwf; rw [h6, h5, h3, h4])
            hib
          rw [stateAt] at hso
          rw [hso] at hsv
          cases hsv
        · simpa using hib
    | some ts =>
      rw [changeTileState_spec b p ts (Or.inr hbs) hso] at h
      cases hbo : ts.isOpen with
      | true =>
        rw [if_pos hbo] at h
        cases h
        exact ⟨Inv_of_preinv _ hwfA heqA, rfl⟩
      | false =>
        rw [if_neg (by rw [hbo]; intro hcon; cases hcon)] at h
        cases h
        refine ⟨Inv_of_preinv _ (setTS_WF _ p _ hwfA) ?_, rfl⟩
        show _ = _
        rw [setTS_counter,
          setTS_openEmptyCount_eq (b.setBoardState BoardState.active) p ts
            { ts with state := match ts.state with
                | TileVisibility.default => TileVisibility.flag
                | TileVisibility.flag => TileVisibility.default }
            hwfA (by exact hso) rfl]
        exact heqA

end MinesweeperBoard

namespace MinesweeperBoard

theorem preinv_after_open (b b1 : MinesweeperBoard) (sp : SetOpenSpec b b1)
    (hwf : b.WF) (heq : b.CounterInv) : b1.WF ∧ b1.CounterInv := by
  refine ⟨sp.wf hwf, ?_⟩
  have hce := sp.counterEq
  have hE : b1.emptyCount = b.emptyCount := by
    rw [emptyCount, emptyCount, sp.dataEq]
  rw [CounterInv] at heq ⊢
  rw [hE]
  omega

theorem openTile_inv (b : MinesweeperBoard) (p : Point)
    (b2 : MinesweeperBoard) (ev : List Point)
    (h : b.openTile p = Except.ok (b2, ev)) (hwf : b.WF)
    (heq : b.CounterInv) :
    b2.Inv ∧ b2.tileData = b.tileData := by
  cases hts : b.stateAtE p with
  | error e =>
    rw [openTile, hts] at h
    cases h
  | ok ts =>
    simp only [openTile, hts] at h
    by_cases hdef : ts.state ≠ TileVisibility.default
    · rw [if_pos hdef] at h
      cases h
      exact ⟨Inv_of_preinv b hwf heq, rfl⟩
    · rw [if_neg hdef] at h
      cases hso : b.setTileOpen p true with
      | error e =>
        simp only [hso] at h
        cases h
      | ok res =>
        obtain ⟨b1, ev1⟩ := res
        simp only [hso] at h
        have sp := setTileOpen_spec b p true b1 ev1 hso hwf
        obtain ⟨hwf1, heq1⟩ := preinv_after_open b b1 sp hwf heq
        have h01 : 0 ≤ b1.tilesLeftToOpenToWin := by
          rw [heq1]
          have := openEmpty_le_empty b1
          omega
        cases hd : b1.dataAtE p with
        | error e =>
          simp only [hd] at h
          cases h
        | ok d =>
          simp only [hd] at h
          by_cases hdb : d = TileData.bomb
          · rw [if_pos hdb] at h
            obtain ⟨b2l, evl, hlose, g2, g1, g3, g4, g5, g6, g7, _, _, _⟩ :=
              handleLose_spec b1 hwf1
            simp only [hlose] at h
            cases h
            refine ⟨⟨WF_transfer hwf1 g1 g5 g6 g7, ?_, fun hne =>
              absurd g2 hne⟩, g1.trans sp.dataEq⟩
            rw [g4]
            exact h01
          · rw [if_neg hdb] at h
            by_cases hz : b1.tilesLeftToOpenToWin = 0
            · obtain ⟨b2w, evw, hwin, g2, g1, g3, g4, g5, g6, g7, g8, _, _,
                _⟩ := checkWin_zero b1 hwf1 hz
              simp only [hwin] at h
              cases h
              refine ⟨⟨WF_transfer hwf1 g1 g5 g6 g7, ?_, fun _ => ?_⟩,
                g1.trans sp.dataEq⟩
              · rw [g4]
                exact h01
              · show _ = _
                rw [g4, g8, show b2.emptyCount = b1.emptyCount by
                  simp only [emptyCount, g1]]
                exact heq1
            · rw [checkWin_nonzero b1 h01 hz] at h
              cases h
              exact ⟨Inv_of_preinv _ hwf1 heq1, sp.dataEq⟩

end MinesweeperBoard

namespace MinesweeperBoard

theorem openNeighbors_inv (b : MinesweeperBoard) (p : Point)
    (b2 : MinesweeperBoard) (ev : List Point)
    (h : b.openNeighbors p = Except.ok (b2, ev)) (hwf : b.WF)
    (heq : b.CounterInv) :
    b2.Inv ∧ b2.tileData = b.tileData := by
  cases hts : b.stateAtE p with
  | error e =>
    rw [openNeighbors, hts] at h
    cases h
  | ok ts =>
    simp only [openNeighbors, hts] at h
    by_cases hbo : ¬ts.isOpen = true
    · rw [if_pos hbo] at h
      cases h
      exact ⟨Inv_of_preinv b hwf heq, rfl⟩
    · rw [if_neg hbo] at h
      cases hd : b.dataAtE p with
      | error e =>
        simp only [hd] at h
        cases h
      | ok d =>
        simp only [hd] at h
        by_cases hdb : d ≠ TileData.bomb
        · rw [assertB_pass _ _ b hdb] at h
          cases hf1 : b.filterTS (fun s =>
              !s.isOpen && s.state = TileVisibility.flag)
              ((eightWayNeighbors p).filter
                (fun q => b.tileData.isInBounds q)) with
          | error e =>
            simp only [hf1] at h
            cases h
          | ok flagNeighbors =>
            simp only [hf1] at h
            cases d with
            | bomb => exact absurd rfl hdb
            | empty k =>
              split at h
              next hlen =>
                cases h
                exact ⟨Inv_of_preinv b hwf heq, rfl⟩
              next hlen =>
                cases hf2 : b.filterTS (fun s =>
                  !s.isOpen && s.state ≠ TileVisibility.flag)
                  ((eightWayNeighbors p).filter
                    (fun q => b.tileData.isInBounds q)) with
              | error e =>
                simp only [hf2] at h
                cases h
              | ok neighborsToOpen =>
                simp only [hf2] at h
                cases hfold : MinesweeperBoard.openListF
                    (fun bq q => bq.setTileOpen q true) b neighborsToOpen with
                | error e =>
                  simp only [hfold] at h
                  cases h
                | ok res =>
                  obtain ⟨b1, ev1⟩ := res
                  simp only [hfold] at h
                  have sp := openListF_spec _
                    (fun bq q bq2 evq hh hwfq =>
                      setTileOpen_spec bq q true bq2 evq hh hwfq)
                    _ _ _ _ hfold hwf
                  obtain ⟨hwf1, heq1⟩ := preinv_after_open b b1 sp hwf heq
                  have h01 : 0 ≤ b1.tilesLeftToOpenToWin := by
                    rw [heq1]
                    have := openEmpty_le_empty b1
                    omega
                  cases hfb : b1.findBomb neighborsToOpen with
                  | error e =>
                    simp only [hfb] at h
                    cases h
                  | ok anyBomb =>
                    simp only [hfb] at h
                    cases anyBomb with
                    | true =>
                      simp only [if_true] at h
                      obtain ⟨b2l, evl, hlose, g2, g1, g3, g4, g5, g6, g7,
                        _, _, _⟩ := handleLose_spec b1 hwf1
                      simp only [hlose] at h
                      cases h
                      refine ⟨⟨WF_transfer hwf1 g1 g5 g6 g7, ?_, fun hne =>
                        absurd g2 hne⟩, g1.trans sp.dataEq⟩
                      rw [g4]
                      exact h01
                    | false =>
                      simp only [Bool.false_eq_true, if_false] at h
                      by_cases hz : b1.tilesLeftToOpenToWin = 0
                      · obtain ⟨b2w, evw, hwin, g2, g1, g3, g4, g5, g6, g7,
                          g8, _, _, _⟩ := checkWin_zero b1 hwf1 hz
                        simp only [hwin] at h
                        cases h
                        refine ⟨⟨WF_transfer hwf1 g1 g5 g6 g7, ?_,
                          fun _ => ?_⟩, g1.trans sp.dataEq⟩
                        · rw [g4]
                          exact h01
                        · show _ = _
                          rw [g4, g8, show b2.emptyCount = b1.emptyCount by
                            simp only [emptyCount, g1]]
                          exact heq1
                      · rw [checkWin_nonzero b1 h01 hz] at h
                        cases h
                        exact ⟨Inv_of_preinv _ hwf1 heq1, sp.dataEq⟩
        · rw [assertB] at h
          rw [if_neg hdb] at h
          cases h

end MinesweeperBoard

namespace MinesweeperBoard

theorem clickTile_inv (b : MinesweeperBoard) (p : Point)
    (b2 : MinesweeperBoard) (ev : List Point)
    (h : b.clickTile p = Except.ok (b2, ev)) (hI : b.Inv) :
    b2.Inv ∧ b2.tileData = b.tileData := by
  obtain ⟨hwf, h0, heqc⟩ := hI
  cases hbs : b.boardState with
  | won =>
    rw [clickTile_terminal b p (Or.inl hbs)] at h
    cases h
    exact ⟨⟨hwf, h0, heqc⟩, rfl⟩
  | lost =>
    rw [clickTile_terminal b p (Or.inr hbs)] at h
    cases h
    exact ⟨⟨hwf, h0, heqc⟩, rfl⟩
  | active =>
    have heq : b.CounterInv := heqc (by rw [hbs]; intro hcon; cases hcon)
    rw [clickTile, lazyActive_eq b (Or.inl hbs)] at h
    have hne : ¬ ((b.setBoardState BoardState.active).boardState ≠
        BoardState.active) := by
      rw [setBoardState_boardState]
      intro hcon
      exact hcon rfl
    rw [if_neg hne] at h
    have hwfA : (b.setBoardState BoardState.active).WF := hwf
    have heqA : (b.setBoardState BoardState.active).CounterInv := heq
    cases hts : (b.setBoardState BoardState.active).stateAtE p with
    | error e =>
      rw [hts] at h
      cases h
    | ok ts =>
      simp only [hts] at h
      by_cases hbo : ts.isOpen = true
      · rw [if_pos hbo] at h
        exact openNeighbors_inv (b.setBoardState BoardState.active) p b2 ev
          h hwfA heqA
      · rw [if_neg hbo] at h
        exact openTile_inv (b.setBoardState BoardState.active) p b2 ev h
          hwfA heqA
  | not_started =>
    have heq : b.CounterInv := heqc (by rw [hbs]; intro hcon; cases hcon)
    rw [clickTile, lazyActive_eq b (Or.inr hbs)] at h
    have hne : ¬ ((b.setBoardState BoardState.active).boardState ≠
        BoardState.active) := by
      rw [setBoardState_boardState]
      intro hcon
      exact hcon rfl
    rw [if_neg hne] at h
    have hwfA : (b.setBoardState BoardState.active).WF := hwf
    have heqA : (b.setBoardState BoardState.active).CounterInv := heq
    cases hts : (b.setBoardState BoardState.active).stateAtE p with
    | error e =>
      rw [hts] at h
      cases h
    | ok ts =>
      simp only [hts] at h
      by_cases hbo : ts.isOpen = true
      · rw [if_pos hbo] at h
        exact openNeighbors_inv (b.setBoardState BoardState.active) p b2 ev
          h hwfA heqA
      · rw [if_neg hbo] at h
        exact openTile_inv (b.setBoardState BoardState.active) p b2 ev h
          hwfA heqA

end MinesweeperBoard

/-! ### Counting a grid array over its points -/

namespace Grid

theorem countP_array_points (g : Grid α) (pred : α → Bool)
    (hlen : g.array.length = g.width * g.height) :
    g.array.countP pred = g.points.countP
      (fun p => ((g.getOrNull p).map pred).getD false) := by
  have h1 := countP_range_get? g.array pred
  rw [hlen] at h1
  rw [← h1]
  show (List.range (g.width * g.height)).countP _ = _
  rw [points, ← rowMajorPoints_map_index g.width g.height, List.countP_map]
  apply List.countP_congr
  intro p hp
  have hb : g.isInBounds p = true := by
    rw [isInBounds_iff]
    exact (mem_rowMajorPoints g.width g.height p).mp hp
  obtain ⟨x, y, rfl, hx, hy⟩ := g.exists_nat_coords _ hb
  simp only [Function.comp]
  rw [toNat_index_eq g.width x y, ← getOrNull_inBounds g x y hx hy]
  cases g.getOrNull { x := (x : Int), y := (y : Int) } <;> simp

end Grid

/-! ### Shuffle lemmas -/

theorem swapAt_length (a : List α) (i j : Nat) :
    (swapAt a i j).length = a.length := by
  rw [swapAt]
  cases a.get? i <;> cases a.get? j <;> simp

theorem countP_swapAt (pred : α → Bool) (a : List α) (i j : Nat) :
    (swapAt a i j).countP pred = a.countP pred := by
  rw [swapAt]
  cases hvi : a.get? i with
  | none => rfl
  | some vi =>
    cases hvj : a.get? j with
    | none => rfl
    | some vj =>
      show ((a.set i vj).set j vi).countP pred = a.countP pred
      have hjlen : j < a.length := by
        rw [List.get?_eq_getElem?] at hvj
        exact (List.getElem?_eq_some_iff.mp hvj).1
      have hgj : (a.set i vj).get? j = some vj := by
        by_cases hij : i = j
        · subst hij
          rw [List.get?_eq_getElem?, List.getElem?_set_self]
          omega
        · rw [List.get?_eq_getElem?, List.getElem?_set_ne hij,
            ← List.get?_eq_getElem?]
          exact hvj
      have e1 := countP_set_eq pred a i vj vi hvi
      have e2 := countP_set_eq pred (a.set i vj) j vi vj hgj
      omega

theorem shuffleAux_length (choice : Nat → Nat) (a : List α) (n : Nat) :
    (shuffleAux choice a n).length = a.length := by
  induction n generalizing a with
  | zero => rfl
  | succ i ih => rw [shuffleAux, ih, swapAt_length]

theorem countP_shuffleAux (choice : Nat → Nat) (pred : α → Bool)
    (a : List α) (n : Nat) :
    (shuffleAux choice a n).countP pred = a.countP pred := by
  induction n generalizing a with
  | zero => rfl
  | succ i ih => rw [shuffleAux, ih, countP_swapAt]

theorem shuffleArray_length (choice : Nat → Nat) (a : List α) :
    (shuffleArray choice a).length = a.length :=
  shuffleAux_length choice a (a.length - 1)

theorem countP_shuffleArray (choice : Nat → Nat) (pred : α → Bool)
    (a : List α) :
    (shuffleArray choice a).countP pred = a.countP pred :=
  countP_shuffleAux choice pred a (a.length - 1)

namespace MinesweeperBoard

theorem mkBombsArray_length (size bombs : Nat) (h : bombs ≤ size) :
    (mkBombsArray size bombs).length = size := by
  rw [mkBombsArray]
  simp only [List.length_append, List.length_replicate]
  omega

theorem mkBombsArray_count (size bombs : Nat) :
    (mkBombsArray size bombs).countP (fun x => x) = min bombs size := by
  rw [mkBombsArray, List.countP_append, List.countP_replicate,
    List.countP_replicate]
  simp

end MinesweeperBoard

/-! ### Constructor characterization -/

namespace MinesweeperBoard

theorem mkBoard_ok_dims (w h : Nat) (arr : List Bool) (b : MinesweeperBoard)
    (hok : mkBoard w h arr = Except.ok b) :
    0 < w ∧ 0 < h ∧ arr.length = w * h := by
  by_cases hw : 0 < w
  · by_cases hh : 0 < h
    · by_cases hlen : arr.length = w * h
      · exact ⟨hw, hh, hlen⟩
      · rw [mkBoard] at hok
        simp only [assertG, if_pos hw, if_pos hh, if_neg hlen] at hok
        cases hok
    · rw [mkBoard] at hok
      simp only [assertG, if_pos hw, if_neg hh] at hok
      cases hok
  · rw [mkBoard] at hok
    simp only [assertG, if_neg hw] at hok
    cases hok

theorem mkBoard_spec (w h : Nat) (arr : List Bool)
    (hw : 0 < w) (hh : 0 < h) (hlen : arr.length = w * h) :
    ∃ b, mkBoard w h arr = Except.ok b ∧
      b.boardState = BoardState.not_started ∧
      b.tileData.width = w ∧ b.tileData.height = h ∧
      b.tileData.array.length = w * h ∧
      b.tileState = Grid.mk w h (w * h)
        (List.replicate (w * h) initTileState) ∧
      b.bombCount = arr.countP (fun x => x) ∧
      b.tilesLeftToOpenToWin =
        ((w * h : Nat) : Int) - (arr.countP (fun x => x) : Int) ∧
      (∀ p v, (Grid.mk w h (w * h) arr : Grid Bool).getOrNull p = some v →
        b.dataAt p = some (if v then TileData.bomb
          else TileData.empty
            (((eightWayNeighbors p).filter (fun q =>
              (((Grid.mk w h (w * h) arr : Grid Bool).getOrNull q).getD
                false))).length))) := by
  obtain ⟨g2, hmap, hgw, hgh, hglen, hpt⟩ :=
    Grid.mapIndexed_ok (Grid.mk w h (w * h) arr)
      (fun point isBomb => if isBomb then TileData.bomb
        else TileData.empty
          (((eightWayNeighbors point).filter (fun q =>
            (((Grid.mk w h (w * h) arr : Grid Bool).getOrNull q).getD
              false))).length))
      hw hh hlen
  refine ⟨MinesweeperBoard.mk BoardState.not_started g2
      (Grid.mk w h (w * h) (List.replicate (w * h) initTileState))
      (arr.countP (fun x => x))
      (((w * h : Nat) : Int) - (arr.countP (fun x => x) : Int)),
    ?_, rfl, hgw, hgh, hglen, rfl, rfl, rfl, ?_⟩
  · rw [mkBoard]
    simp only [assertG, if_pos hw, if_pos hh, if_pos hlen]
    simp only [Grid.mkGrid_ok w h arr hw hh hlen]
    simp only [hmap]
    simp only [Grid.mkGrid_ok w h (List.replicate (w * h) initTileState)
      hw hh (List.length_replicate _ _)]
  · intro p v hv
    exact hpt p v hv

end MinesweeperBoard

namespace MinesweeperBoard

theorem countP_ne_bomb_add (l : List TileData) :
    l.countP (fun d => d ≠ TileData.bomb) +
      l.countP (fun d => d = TileData.bomb) = l.length := by
  induction l with
  | nil => rfl
  | cons a t ih =>
    simp only [List.countP_cons, List.length_cons]
    by_cases hb : a = TileData.bomb
    · have h1 : (decide (a ≠ TileData.bomb)) = false := by simp [hb]
      have h2 : (decide (a = TileData.bomb)) = true := by simp [hb]
      rw [h1, h2, if_neg (by simp), if_pos rfl]
      omega
    · have h1 : (decide (a ≠ TileData.bomb)) = true := by simp [hb]
      have h2 : (decide (a = TileData.bomb)) = false := by simp [hb]
      rw [h1, h2, if_pos rfl, if_neg (by simp)]
      omega

theorem mkBoard_ok_spec (w h : Nat) (arr : List Bool) (b : MinesweeperBoard)
    (hok : mkBoard w h arr = Except.ok b) :
    b.WF ∧ b.boardState = BoardState.not_started ∧
      b.tileData.width = w ∧ b.tileData.height = h ∧
      b.bombCount = arr.countP (fun x => x) ∧
      b.bombTileCount = arr.countP (fun x => x) ∧
      b.emptyCount = w * h - arr.countP (fun x => x) ∧
      b.openEmptyCount = 0 ∧
      b.tilesLeftToOpenToWin =
        ((w * h : Nat) : Int) - (arr.countP (fun x => x) : Int) ∧
      b.Consistent := by
  obtain ⟨hw, hh, hlen⟩ := mkBoard_ok_dims w h arr b hok
  obtain ⟨b2, hb2, hbs, hW, hH, hL, hTS, hBC, hCtr, hpt⟩ :=
    mkBoard_spec w h arr hw hh hlen
  rw [hok] at hb2
  injection hb2 with hbeq
  subst hbeq
  have hWF : b.WF := by
    refine ⟨?_, ?_, ?_, ?_, ?_, ?_⟩
    · rw [hW]; exact hw
    · rw [hH]; exact hh
    · rw [hTS, hW]
    · rw [hTS, hH]
    · rw [hL, hW, hH]
    · rw [hTS, hL]
      simp
  have hib : ∀ q, b.tileData.isInBounds q =
      (Grid.mk w h (w * h) arr : Grid Bool).isInBounds q := by
    intro q
    simp only [Grid.isInBounds, hW, hH]
  have hbt : b.bombTileCount = arr.countP (fun x => x) := by
    rw [bombTileCount,
      Grid.countP_array_points b.tileData _ (by rw [hL, hW, hH]),
      Grid.points, hW, hH,
      Grid.countP_array_points (Grid.mk w h (w * h) arr)
        (fun (x : Bool) => x) hlen]
    apply List.countP_congr
    intro p hp
    have hbb : (Grid.mk w h (w * h) arr : Grid Bool).isInBounds p = true := by
      rw [Grid.isInBounds_iff]
      exact (mem_rowMajorPoints w h p).mp hp
    obtain ⟨v, hv⟩ := Grid.getOrNull_isSome _ p hlen hbb
    have hd := hpt p v hv
    simp only [dataAt] at hd
    cases v with
    | true => simp [hd, hv]
    | false => simp [hd, hv]
  have hec : b.emptyCount = w * h - arr.countP (fun x => x) := by
    have he2 := countP_ne_bomb_add b.tileData.array
    rw [hL] at he2
    have hbt2 : b.tileData.array.countP (fun d => d = TileData.bomb) =
        arr.countP (fun x => x) := hbt
    show b.tileData.array.countP (fun d => d ≠ TileData.bomb) = _
    omega
  have hoe : b.openEmptyCount = 0 := by
    rw [openEmptyCount]
    apply countOpenEmpty_closed
    intro s hs
    rw [hTS] at hs
    have hsi : s = initTileState := (List.mem_replicate.mp hs).2
    rw [hsi]
    rfl
  have hcons : b.Consistent := by
    intro p hp k hdp
    have hbp : b.tileData.isInBounds p = true := (Grid.mem_points _ p).mp hp
    have hbb : (Grid.mk w h (w * h) arr : Grid Bool).isInBounds p = true := by
      rw [← hib]
      exact hbp
    obtain ⟨v, hv⟩ := Grid.getOrNull_isSome _ p hlen hbb
    have hd := hpt p v hv
    cases v with
    | true =>
      simp only [if_true] at hd
      rw [hdp] at hd
      simp at hd
    | false =>
      simp only [Bool.false_eq_true, if_false] at hd
      rw [hdp] at hd
      have h1 := Option.some.inj hd
      have hk := TileData.empty.inj h1
      rw [hk, bombNeighborCountAt]
      rw [List.countP_eq_length_filter, List.filter_filter]
      congr 1
      apply List.filter_congr
      intro q hq
      by_cases hqb : (Grid.mk w h (w * h) arr : Grid Bool).isInBounds q = true
      · obtain ⟨vq, hvq⟩ := Grid.getOrNull_isSome _ q hlen hqb
        have hdq := hpt q vq hvq
        rw [hvq]
        cases vq with
        | true =>
          simp only [if_pos] at hdq
          simp [hdq, hib, hqb]
        | false =>
          simp only [Bool.false_eq_true, if_neg, not_false_iff] at hdq
          simp [hdq, hib, hqb]
      · have hqn : (Grid.mk w h (w * h) arr : Grid Bool).getOrNull q = none :=
          Grid.getOrNull_out _ q (by simpa using hqb)
        have hdqn : b.dataAt q = none := by
          rw [dataAt]
          apply Grid.getOrNull_out
          rw [hib]
          simpa using hqb
        simp [hqn, hdqn, hib, hqb]
  exact ⟨hWF, hbs, hW, hH, hBC, hbt, hec, hoe, hCtr, hcons⟩

theorem mkBoard_inv (w h : Nat) (arr : List Bool) (b : MinesweeperBoard)
    (hok : mkBoard w h arr = Except.ok b) : b.Inv := by
  obtain ⟨hWF, _, _, _, _, hbt, hec, hoe, hctr, _⟩ :=
    mkBoard_ok_spec w h arr b hok
  obtain ⟨hw, hh, hlen⟩ := mkBoard_ok_dims w h arr b hok
  apply Inv_of_preinv b hWF
  rw [CounterInv, hctr, hec, hoe]
  have hle : arr.countP (fun x => x) ≤ w * h := by
    rw [← hlen]
    exact List.countP_le_length _
  omega

theorem Consistent_transfer {a b : MinesweeperBoard} (hc : a.Consistent)
    (hdata : b.tileData = a.tileData) : b.Consistent := by
  intro p hp k hdp
  simp only [dataAt, hdata] at hdp
  rw [hdata] at hp
  have hk := hc p hp k hdp
  rw [hk]
  simp only [bombNeighborCountAt, dataAt, hdata]

theorem reachable_inv_consistent (b : MinesweeperBoard) (h : Reachable b) :
    b.Inv ∧ b.Consistent := by
  induction h with
  | init w h arr c hok =>
    refine ⟨mkBoard_inv w h arr c hok, ?_⟩
    obtain ⟨_, _, _, _, _, _, _, _, _, hcons⟩ :=
      mkBoard_ok_spec w h arr c hok
    exact hcons
  | click a a2 p ev hr hok ih =>
    obtain ⟨hinv, hcons⟩ := ih
    obtain ⟨hinv2, hdata⟩ := clickTile_inv a p a2 ev hok hinv
    exact ⟨hinv2, Consistent_transfer hcons hdata⟩
  | flag a a2 p ev hr hok ih =>
    obtain ⟨hinv, hcons⟩ := ih
    obtain ⟨hinv2, hdata⟩ := changeTileState_inv a p a2 ev hok hinv
    exact ⟨hinv2, Consistent_transfer hcons hdata⟩

end MinesweeperBoard

/-! ### Generate characterization -/

namespace MinesweeperBoard

theorem generate_spec (w h bombs : Nat) (choice : Nat → Nat)
    (hw : 0 < w) (hh : 0 < h) (hb : 0 < bombs) (hbs : bombs < w * h) :
    ∃ b, generate w h bombs choice = Except.ok b ∧ b.bombCount = bombs ∧
      b.bombTileCount = bombs ∧ b.Consistent ∧ b.Inv := by
  have hlen : (shuffleArray choice (mkBombsArray (w * h) bombs)).length =
      w * h := by
    rw [shuffleArray_length, mkBombsArray_length _ _ (Nat.le_of_lt hbs)]
  have hcnt : (shuffleArray choice
      (mkBombsArray (w * h) bombs)).countP (fun x => x) = bombs := by
    rw [countP_shuffleArray, mkBombsArray_count]
    omega
  obtain ⟨b, hok, _⟩ := mkBoard_spec w h
    (shuffleArray choice (mkBombsArray (w * h) bombs)) hw hh hlen
  obtain ⟨_, _, _, _, hBC, hBT, _, _, _, hcons⟩ :=
    mkBoard_ok_spec w h _ b hok
  refine ⟨b, hok, ?_, ?_, hcons, mkBoard_inv w h _ b hok⟩
  · rw [hBC, hcnt]
  · rw [hBT, hcnt]

end MinesweeperBoard

/-! ### The cascade never opens a bomb elsewhere -/

namespace MinesweeperBoard

theorem zero_count_no_bomb_neighbors (b : MinesweeperBoard)
    (hcons : b.Consistent) (p : Point)
    (hp : p ∈ b.tileData.points)
    (hd : b.dataAt p = some (TileData.empty 0)) :
    ∀ r ∈ (eightWayNeighbors p).filter (fun q => b.tileData.isInBounds q),
      ¬ (b.dataAt r = some TileData.bomb) := by
  have hk := hcons p hp 0 hd
  rw [bombNeighborCountAt] at hk
  intro r hr
  have := (List.countP_eq_zero.mp hk.symm) r hr
  simpa using this

theorem openListF_state_preserve (q : Point)
    (rec : MinesweeperBoard → Point → BoardResult)
    (hrec : ∀ (a a2 : MinesweeperBoard) (r : Point) (ev : List Point),
      rec a r = Except.ok (a2, ev) → a.WF → SetOpenSpec a a2)
    (hpres : ∀ (a a2 : MinesweeperBoard) (r : Point) (ev : List Point),
      rec a r = Except.ok (a2, ev) → a.WF → a.Consistent → q ≠ r →
        a.dataAt q = some TileData.bomb → a2.stateAt q = a.stateAt q) :
    ∀ (ps : List Point) (b b2 : MinesweeperBoard) (ev : List Point),
      openListF rec b ps = Except.ok (b2, ev) → b.WF → b.Consistent →
      (∀ r ∈ ps, q ≠ r) → b.dataAt q = some TileData.bomb →
      b2.stateAt q = b.stateAt q := by
  intro ps
  induction ps with
  | nil =>
    intro b b2 ev h _ _ _ _
    simp only [openListF] at h
    cases h
    rfl
  | cons r rs ih =>
    intro b b2 ev h hwf hcons hne hq
    simp only [openListF] at h
    cases h1 : rec b r with
    | error e =>
      simp only [h1] at h
      cases h
    | ok r1 =>
      obtain ⟨b1, ev1⟩ := r1
      simp only [h1] at h
      cases h2 : openListF rec b1 rs with
      | error e =>
        rw [h2] at h
        cases h
      | ok r2 =>
        obtain ⟨b3, ev2⟩ := r2
        rw [h2] at h
        cases h
        have sp1 := hrec b b1 r ev1 h1 hwf
        have hstep : b1.stateAt q = b.stateAt q :=
          hpres b b1 r ev1 h1 hwf hcons (hne r (by simp)) hq
        have hq1 : b1.dataAt q = some TileData.bomb := by
          simp only [dataAt, sp1.dataEq]
          exact hq
        have hrest := ih b1 b2 ev2 h2 (sp1.wf hwf)
          (Consistent_transfer hcons sp1.dataEq)
          (fun r2 hr2 => hne r2 (by simp [hr2])) hq1
        rw [hrest, hstep]

theorem setTileOpenF_bomb_preserve :
    ∀ (fuel : Nat) (b : MinesweeperBoard) (p : Point) (w : Bool)
      (b2 : MinesweeperBoard) (ev : List Point),
      setTileOpenF fuel b p w = Except.ok (b2, ev) → b.WF → b.Consistent →
      ∀ q, q ≠ p → b.dataAt q = some TileData.bomb →
        b2.stateAt q = b.stateAt q := by
  intro fuel
  induction fuel with
  | zero =>
    intro b p w b2 ev h hwf hcons q hqp hq
    rw [setTileOpenF] at h
    cases h
  | succ n ih =>
    intro b p w b2 ev h hwf hcons q hqp hq
    cases hts : b.stateAtE p with
    | error e =>
      rw [setTileOpenF, hts] at h
      cases h
    | ok ts =>
      cases hd : b.dataAtE p with
      | error e =>
        rw [setTileOpenF, hts, hd] at h
        cases h
      | ok d =>
        have hts2 : b.stateAt p = some ts := (b.stateAtE_ok p ts).mp hts
        have hd2 : b.dataAt p = some d := (b.dataAtE_ok p d).mp hd
        simp only [setTileOpenF, hts, hd] at h
        cases hbo : ts.isOpen with
        | true =>
          simp only [hbo, if_true] at h
          cases h
          rfl
        | false =>
          simp only [hbo, Bool.false_eq_true, if_false] at h
          by_cases hdefn : ts.state ≠ TileVisibility.default
          · rw [if_pos hdefn] at h
            cases h
            rfl
          · have hdef : ts.state = TileVisibility.default := not_not.mp hdefn
            rw [if_neg hdefn] at h
            split at h
            next =>
              cases h
              exact setTS_stateAt_ne b p q _ hqp
            next k =>
              by_cases hk : k ≠ 0
              · rw [if_pos hk] at h
                cases h
                exact setTS_stateAt_ne b p q _ hqp
              · rw [if_neg hk] at h
                have hk0 : k = 0 := not_not.mp hk
                subst hk0
                split at h
                next e heq2 =>
                  cases h
                next b3 evs heq2 =>
                  cases h
                  have s1 := openEmptySpec b p ts w 0 hwf hts2 hd2 hbo hdef
                  have hnb := zero_count_no_bomb_neighbors b hcons p
                    (by rw [Grid.mem_points]
                        exact dataAt_some_inBounds b p _ hd2) hd2
                  have hne2 : ∀ r ∈ (eightWayNeighbors p).filter
                      (fun q2 => b.tileData.isInBounds q2), q ≠ r := by
                    intro r hr
                    intro hqr
                    subst hqr
                    exact hnb q hr hq
                  have hfin := openListF_state_preserve q
                    (fun bq q2 => setTileOpenF n bq q2 false)
                    (fun a a2 r ev2 hh hwfa =>
                      setTileOpenF_spec n a r false a2 ev2 hh hwfa)
                    (fun a a2 r ev2 hh hwfa hconsa hqr hqa =>
                      ih a r false a2 ev2 hh hwfa hconsa q hqr hqa)
                    _ _ _ _ heq2 (s1.wf hwf)
                    (Consistent_transfer hcons s1.dataEq) ?_ ?_
                  · rw [hfin]
                    show _ = b.stateAt q
                    exact setTS_stateAt_ne b p q _ hqp
                  · intro r hr
                    rw [List.mem_filter] at hr
                    obtain ⟨hrm, hrb⟩ := hr
                    have hrb2 : b.tileData.isInBounds r = true := by
                      rw [← s1.dataEq]
                      exact hrb
                    exact hne2 r (List.mem_filter.mpr ⟨hrm, hrb2⟩)
                  · simp only [dataAt, s1.dataEq]
                    exact hq

end MinesweeperBoard

/-! ### Further helper lemmas for the claim theorems -/

namespace MinesweeperBoard

theorem stateAt_isSome (b : MinesweeperBoard) (hwf : b.WF) (q : Point)
    (hb : b.tileData.isInBounds q = true) : ∃ s, b.stateAt q = some s := by
  obtain ⟨h1, h2, h3, h4, h5, h6⟩ := hwf
  show ∃ s, b.tileState.getOrNull q = some s
  apply Grid.getOrNull_isSome
  · rw [h6, h5, h3, h4]
  · rw [bounds_agree b ⟨h1, h2, h3, h4, h5, h6⟩]
    exact hb

theorem dataAt_isSome (b : MinesweeperBoard) (hwf : b.WF) (q : Point)
    (hb : b.tileData.isInBounds q = true) : ∃ d, b.dataAt q = some d := by
  show ∃ d, b.tileData.getOrNull q = some d
  exact Grid.getOrNull_isSome _ _ hwf.2.2.2.2.1 hb

theorem setTileOpen_bomb_preserve (b : MinesweeperBoard) (p : Point)
    (w : Bool) (b2 : MinesweeperBoard) (ev : List Point)
    (h : b.setTileOpen p w = Except.ok (b2, ev)) (hwf : b.WF)
    (hcons : b.Consistent) (q : Point) (hqp : q ≠ p)
    (hq : b.dataAt q = some TileData.bomb) :
    b2.stateAt q = b.stateAt q :=
  setTileOpenF_bomb_preserve (b.tileState.array.length + 1) b p w b2 ev h
    hwf hcons q hqp hq

theorem winFlagTS_bomb_state (s : TileState) :
    (winFlagTS TileData.bomb s).state = TileVisibility.flag := by
  rw [winFlagTS]
  by_cases hf : s.state = TileVisibility.flag
  · rw [if_neg]
    · exact hf
    · intro hcon
      exact hcon.2 hf
  · rw [if_pos ⟨rfl, hf⟩]

theorem winFlagTS_isOpen (d : TileData) (s : TileState) :
    (winFlagTS d s).isOpen = s.isOpen := by
  rw [winFlagTS]
  by_cases hc : d = TileData.bomb ∧ s.state ≠ TileVisibility.flag
  · rw [if_pos hc]
  · rw [if_neg hc]

theorem loseTS_isOpen_of_open (d : TileData) (s : TileState)
    (h : s.isOpen = true) : (loseTS d s).isOpen = true := by
  rw [loseTS]
  by_cases hc : (d = TileData.bomb ∧ s.state = TileVisibility.default) ∨
      (d ≠ TileData.bomb ∧ s.state = TileVisibility.flag)
  · rw [if_pos hc]
  · rw [if_neg hc]
    exact h

theorem checkWin_open_preserved (b1 bw : MinesweeperBoard)
    (evw : List Point) (hwf1 : b1.WF)
    (hcw : b1.checkWin = Except.ok (bw, evw)) (q : Point) (s : TileState)
    (hs : b1.stateAt q = some s) :
    ∃ s2, bw.stateAt q = some s2 ∧ s2.isOpen = s.isOpen := by
  by_cases hz : b1.tilesLeftToOpenToWin = 0
  · obtain ⟨b2w, evw2, hwin, _, _, _, _, _, _, _, _, hpt, _, _⟩ :=
      checkWin_zero b1 hwf1 hz
    rw [hwin] at hcw
    cases hcw
    obtain ⟨d, hd⟩ := dataAt_isSome b1 hwf1 q
      (stateAt_some_inBounds b1 q s hwf1 hs)
    exact ⟨winFlagTS d s, hpt q s d hs hd, winFlagTS_isOpen d s⟩
  · by_cases h0 : 0 ≤ b1.tilesLeftToOpenToWin
    · rw [checkWin_nonzero b1 h0 hz] at hcw
      cases hcw
      exact ⟨s, hs, rfl⟩
    · rw [checkWin] at hcw
      rw [assertB, if_neg h0] at hcw
      cases hcw

theorem handleLose_open_preserved (b1 bl : MinesweeperBoard)
    (evl : List Point) (hwf1 : b1.WF)
    (hlo : b1.handleLose = Except.ok (bl, evl)) (q : Point) (s : TileState)
    (hs : b1.stateAt q = some s) (ho : s.isOpen = true) :
    ∃ s2, bl.stateAt q = some s2 ∧ s2.isOpen = true := by
  obtain ⟨b2l, evl2, hlose, _, _, _, _, _, _, _, hpt, _, _⟩ :=
    handleLose_spec b1 hwf1
  rw [hlose] at hlo
  cases hlo
  obtain ⟨d, hd⟩ := dataAt_isSome b1 hwf1 q
    (stateAt_some_inBounds b1 q s hwf1 hs)
  exact ⟨loseTS d s, hpt q s d hs hd, loseTS_isOpen_of_open d s ho⟩

theorem clickTile_open_routes (b : MinesweeperBoard) (p : Point)
    (ts : TileState) (hst : b.boardState = BoardState.active)
    (hts : b.stateAt p = some ts) (hopen : ts.isOpen = true) :
    b.clickTile p = b.openNeighbors p := by
  rw [clickTile, lazyActive_eq b (Or.inl hst),
    setBoardState_self b BoardState.active hst]
  rw [if_neg (by rw [hst]; intro hcon; exact hcon rfl)]
  rw [(b.stateAtE_ok p ts).mpr hts]
  simp only [hopen, if_true]

theorem openNeighbors_flag_length (b : MinesweeperBoard) (p : Point)
    (hwf : b.WF) :
    ∃ l, b.filterTS (fun s => !s.isOpen && s.state = TileVisibility.flag)
        ((eightWayNeighbors p).filter (fun q => b.tileData.isInBounds q)) =
      Except.ok l ∧ l.length = b.flagNeighborCount p := by
  have hsome : ∀ q ∈ (eightWayNeighbors p).filter
      (fun q => b.tileData.isInBounds q), ∃ s, b.stateAt q = some s := by
    intro q hq
    exact stateAt_isSome b hwf q (List.mem_filter.mp hq).2
  rw [filterTS_ok b _ _ hsome]
  refine ⟨_, rfl, ?_⟩
  rw [flagNeighborCount, List.countP_eq_length_filter]

theorem openNeighbors_toopen_mem (b : MinesweeperBoard) (p : Point)
    (hwf : b.WF) :
    ∃ l, b.filterTS (fun s => !s.isOpen && s.state ≠ TileVisibility.flag)
        ((eightWayNeighbors p).filter (fun q => b.tileData.isInBounds q)) =
      Except.ok l ∧
      ∀ q s, q ∈ (eightWayNeighbors p).filter
          (fun r => b.tileData.isInBounds r) →
        b.stateAt q = some s → s.isOpen = false →
        s.state = TileVisibility.default → q ∈ l := by
  have hsome : ∀ q ∈ (eightWayNeighbors p).filter
      (fun q => b.tileData.isInBounds q), ∃ s, b.stateAt q = some s := by
    intro q hq
    exact stateAt_isSome b hwf q (List.mem_filter.mp hq).2
  rw [filterTS_ok b _ _ hsome]
  refine ⟨_, rfl, ?_⟩
  intro q s hq hs hbo hdef
  rw [List.mem_filter]
  refine ⟨hq, ?_⟩
  simp [hs, hbo, hdef]

end MinesweeperBoard

namespace MinesweeperBoard

theorem openNeighbors_chord (b : MinesweeperBoard) (p : Point)
    (ts : TileState) (k : Nat) (hwf : b.WF)
    (hts : b.stateAt p = some ts) (hopen : ts.isOpen = true)
    (hd : b.dataAt p = some (TileData.empty k)) :
    (b.flagNeighborCount p ≠ k → b.openNeighbors p = Except.ok (b, [])) ∧
    (b.flagNeighborCount p = k →
      ∀ b2 ev, b.openNeighbors p = Except.ok (b2, ev) →
        ∀ q, q ∈ (eightWayNeighbors p).filter
            (fun r => b.tileData.isInBounds r) →
          ∀ s, b.stateAt q = some s → s.isOpen = false →
            s.state = TileVisibility.default →
            ∃ s2, b2.stateAt q = some s2 ∧ s2.isOpen = true) := by
  have htsE := (b.stateAtE_ok p ts).mpr hts
  have hdE := (b.dataAtE_ok p (TileData.empty k)).mpr hd
  have hno : ¬ (¬ ts.isOpen = true) := not_not_intro hopen
  have hneb : (TileData.empty k : TileData) ≠ TileData.bomb := by
    intro hcon
    cases hcon
  obtain ⟨lf, hlf, hflen⟩ := openNeighbors_flag_length b p hwf
  obtain ⟨lo, hlo, hmem⟩ := openNeighbors_toopen_mem b p hwf
  constructor
  · intro hne
    simp only [openNeighbors, htsE, hdE, if_neg hno,
      assertB_pass _ _ b hneb, hlf]
    rw [if_pos (show lf.length ≠ k by rw [hflen]; exact hne)]
  · intro heqk b2 ev h q hqmem s hsq hsbo hsdef
    simp only [openNeighbors, htsE, hdE, if_neg hno,
      assertB_pass _ _ b hneb, hlf] at h
    rw [if_neg (show ¬ lf.length ≠ k by
      rw [hflen]; exact not_not_intro heqk)] at h
    simp only [hlo] at h
    cases hfold : MinesweeperBoard.openListF
        (fun bq q2 => bq.setTileOpen q2 true) b lo with
    | error e =>
      simp only [hfold] at h
      cases h
    | ok res =>
      obtain ⟨b1, ev1⟩ := res
      simp only [hfold] at h
      have hq_in_lo : q ∈ lo := hmem q s hqmem hsq hsbo hsdef
      obtain ⟨s2, hs2, hs2o⟩ := openListF_opens lo b b1 ev1 hfold hwf q
        hq_in_lo s hsq hsbo hsdef
      have sp := openListF_spec _
        (fun bq q2 bq2 evq hh hwfq => setTileOpen_spec bq q2 true bq2 evq
          hh hwfq) _ _ _ _ hfold hwf
      have hwf1 := sp.wf hwf
      cases hfb : b1.findBomb lo with
      | error e =>
        simp only [hfb] at h
        cases h
      | ok anyBomb =>
        simp only [hfb] at h
        cases anyBomb with
        | true =>
          simp only [if_true] at h
          cases hhl : b1.handleLose with
          | error e =>
            simp only [hhl] at h
            cases h
          | ok resl =>
            obtain ⟨bl, evl⟩ := resl
            simp only [hhl] at h
            cases h
            exact handleLose_open_preserved b1 b2 evl hwf1 hhl q s2 hs2 hs2o
        | false =>
          simp only [Bool.false_eq_true, if_false] at h
          cases hcw : b1.checkWin with
          | error e =>
            simp only [hcw] at h
            cases h
          | ok resw =>
            obtain ⟨bw, evw⟩ := resw
            simp only [hcw] at h
            cases h
            obtain ⟨s3, hs3, hs3o⟩ := checkWin_open_preserved b1 b2 evw
              hwf1 hcw q s2 hs2
            exact ⟨s3, hs3, by rw [hs3o, hs2o]⟩

end MinesweeperBoard

/-! ### Claim theorems -/

namespace MinesweeperBoard

/-- Claim C1, counterexample to the original statement: clicking or
flag-toggling the out-of-bounds point `(5, 5)` on the fresh 2-by-1 board
is not a returns-normally no-op — both calls throw the grid
out-of-bounds error, and the board state has already been switched from
`not_started` to `active` at the moment of the throw. -/
theorem C1_oob_counterexample :
    B21.clickTile { x := 5, y := 5 } = Except.error
      ("Tried to get a point on a grid that is out of bounds",
        B21.setBoardState BoardState.active) ∧
    B21.changeTileState { x := 5, y := 5 } = Except.error
      ("Tried to get a point on a grid that is out of bounds",
        B21.setBoardState BoardState.active) ∧
    ¬ (B21.setBoardState BoardState.active).boardState = B21.boardState := by
  decide

/-- Claim C1 (amended): for an out-of-bounds point, `clickTile` and
`changeTileState` are no-ops only in the terminal `won` / `lost` states;
in the `active` or `not_started` states both calls throw the grid
out-of-bounds error, and the board carried by the throw is the input
board after the lazy `not_started` to `active` transition (so the tile
grid and the counter are unchanged, but the board state may have
changed). -/
theorem C1_oob_throw (b : MinesweeperBoard) (p : Point)
    (hoob : b.tileState.isInBounds p = false) :
    ((b.boardState = BoardState.won ∨ b.boardState = BoardState.lost) →
      b.clickTile p = Except.ok (b, []) ∧
      b.changeTileState p = Except.ok (b, [])) ∧
    ((b.boardState = BoardState.active ∨
        b.boardState = BoardState.not_started) →
      b.clickTile p = Except.error
        ("Tried to get a point on a grid that is out of bounds",
          b.setBoardState BoardState.active) ∧
      b.changeTileState p = Except.error
        ("Tried to get a point on a grid that is out of bounds",
          b.setBoardState BoardState.active)) :=
  ⟨fun h => ⟨clickTile_terminal b p h, changeTileState_terminal b p h⟩,
   fun h => ⟨clickTile_oob b p h hoob, changeTileState_oob b p h hoob⟩⟩

/-- Concrete instance of the amended C1 statement on the 2-by-1
board. -/
theorem C1_oob_throw_witness :
    B21.clickTile { x := 5, y := 5 } = Except.error
      ("Tried to get a point on a grid that is out of bounds",
        B21.setBoardState BoardState.active) :=
  ((C1_oob_throw B21 { x := 5, y := 5 } (by decide)).2
    (Or.inr (by decide))).1

/-- Claim C2: the win check returns with no changes while the counter is
nonzero, succeeds whenever the counter is non-negative, and when the
counter is exactly zero it force-flags every bomb tile not already
flagged (each such tile producing exactly one change notification, in
board order), leaves every other tile untouched, and transitions the
board to `won`; at that instant every bomb is flagged. -/
theorem C2_win_check (b bw : MinesweeperBoard) (evw : List Point)
    (hwf : b.WF) :
    (b.tilesLeftToOpenToWin ≠ 0 → 0 ≤ b.tilesLeftToOpenToWin →
      b.checkWin = Except.ok (b, [])) ∧
    (0 ≤ b.tilesLeftToOpenToWin →
      ∃ b2 ev, b.checkWin = Except.ok (b2, ev)) ∧
    (b.tilesLeftToOpenToWin = 0 → b.checkWin = Except.ok (bw, evw) →
      bw.boardState = BoardState.won ∧
      (∀ q s d, b.stateAt q = some s → b.dataAt q = some d →
        bw.stateAt q = some (winFlagTS d s)) ∧
      (∀ q, b.dataAt q = some TileData.bomb →
        (bw.stateAt q).map TileState.state = some TileVisibility.flag) ∧
      evw = b.tileData.points.filter (fun q => winFlagp b q)) := by
  refine ⟨fun hne h0 => checkWin_nonzero b h0 hne, ?_, ?_⟩
  · intro h0
    by_cases hz : b.tilesLeftToOpenToWin = 0
    · obtain ⟨b2, ev, hcw, _⟩ := checkWin_zero b hwf hz
      exact ⟨b2, ev, hcw⟩
    · exact ⟨b, [], checkWin_nonzero b h0 hz⟩
  · intro hz hcw
    obtain ⟨b2, ev, hcw2, hwon, _, _, _, _, _, _, _, hpt, _, hev⟩ :=
      checkWin_zero b hwf hz
    rw [hcw2] at hcw
    have hpair := Except.ok.inj hcw
    have hb := congrArg Prod.fst hpair
    have he := congrArg Prod.snd hpair
    simp only at hb he
    subst hb
    subst he
    refine ⟨hwon, hpt, ?_, hev⟩
    intro q hq
    obtain ⟨s, hs⟩ := stateAt_isSome b hwf q (dataAt_some_inBounds b q _ hq)
    rw [hpt q s TileData.bomb hs hq]
    simp [winFlagTS_bomb_state]

/-- Concrete instance of C2 on the won 2-by-1 board, whose counter is
zero. -/
theorem C2_win_check_witness : B21wonCW.1.boardState = BoardState.won :=
  ((C2_win_check B21won B21wonCW.1 B21wonCW.2 (by decide)).2.2
    (by decide) (by decide)).1

/-- Claim C3: chording an open empty tile with stored count `k` is
all-or-nothing — if the number of in-bounds closed-and-flagged neighbors
differs from `k` the call returns the board unchanged with no
notifications, and if it equals `k` every in-bounds closed-and-unflagged
neighbor ends up open; clicking an open tile routes to the chord
operation. -/
theorem C3_chord_all_or_nothing (b : MinesweeperBoard) (p : Point)
    (ts : TileState) (k : Nat) (hwf : b.WF) (hts : b.stateAt p = some ts)
    (hopen : ts.isOpen = true) (hd : b.dataAt p = some (TileData.empty k)) :
    (b.flagNeighborCount p ≠ k → b.openNeighbors p = Except.ok (b, [])) ∧
    (b.flagNeighborCount p = k →
      ∀ b2 ev, b.openNeighbors p = Except.ok (b2, ev) →
        ∀ q, q ∈ (eightWayNeighbors p).filter
            (fun r => b.tileData.isInBounds r) →
          ∀ s, b.stateAt q = some s → s.isOpen = false →
            s.state = TileVisibility.default →
            (b2.stateAt q).map TileState.isOpen = some true) ∧
    (b.boardState = BoardState.active →
      b.clickTile p = b.openNeighbors p) := by
  obtain ⟨h1, h2⟩ := openNeighbors_chord b p ts k hwf hts hopen hd
  refine ⟨h1, ?_, fun hst => clickTile_open_routes b p ts hst hts hopen⟩
  intro heqk b2 ev h q hq s hs hbo hdef
  obtain ⟨s2, hs2, hs2o⟩ := h2 heqk b2 ev h q hq s hs hbo hdef
  rw [hs2]
  simp [hs2o]

/-- Concrete instance of C3: chording the opened corner of the 3-by-3
board with the center bomb flagged opens the closed unflagged neighbor
`(1, 0)`. -/
theorem C3_chord_all_or_nothing_witness :
    (B33chord.1.stateAt { x := 1, y := 0 }).map TileState.isOpen =
      some true :=
  ((C3_chord_all_or_nothing B33f { x := 0, y := 0 }
      { state := TileVisibility.default, isOpen := true,
        wasClicked := true } 1
      (by decide) (by decide) (by decide) (by decide)).2.1 (by decide))
    B33chord.1 B33chord.2 (by decide) { x := 1, y := 0 } (by decide)
    initTileState (by decide) (by decide) (by decide)

/-- Claim C4: the loss reveal always succeeds; it transitions the board
to `lost`, rewrites every tile by the reveal rule — an unflagged bomb or
a misflagged (flagged non-bomb) tile is forced open, every other tile is
left exactly as it was — and emits one notification per tile matched by
that rule (regardless of whether it was already open), in board
order. -/
theorem C4_loss_reveal (b bl : MinesweeperBoard) (evl : List Point)
    (hwf : b.WF) :
    (∃ b2 ev, b.handleLose = Except.ok (b2, ev)) ∧
    (b.handleLose = Except.ok (bl, evl) →
      bl.boardState = BoardState.lost ∧
      (∀ q s d, b.stateAt q = some s → b.dataAt q = some d →
        bl.stateAt q = some (loseTS d s)) ∧
      evl = b.tileData.points.filter (fun q => losep b q)) := by
  obtain ⟨b2, ev, h1, h2, _, _, _, _, _, _, hpt, _, hev⟩ :=
    handleLose_spec b hwf
  refine ⟨⟨b2, ev, h1⟩, ?_⟩
  intro h
  rw [h1] at h
  have hpair := Except.ok.inj h
  have hb := congrArg Prod.fst hpair
  have he := congrArg Prod.snd hpair
  simp only at hb he
  subst hb
  subst he
  exact ⟨h2, hpt, hev⟩

/-- Concrete instance of C4 on the 2-by-1 board. -/
theorem C4_loss_reveal_witness : B21lose.1.boardState = BoardState.lost :=
  ((C4_loss_reveal B21 B21lose.1 B21lose.2 (by decide)).2 (by decide)).1

/-- Claim C5, counterexample to the original statement: flagging the
empty tile of the 2-by-1 board and then clicking the bomb loses the
game; the loss reveal force-opens the misflagged empty tile without
decrementing the counter, so the counter still reads 1 even though the
board's single empty tile is open — the counter was not decremented when
that tile first became open. -/
theorem C5_counter_counterexample :
    mkBoard 2 1 [true, false] = Except.ok B21 ∧
    B21lost.boardState = BoardState.lost ∧
    B21lost.dataAt { x := 1, y := 0 } = some (TileData.empty 1) ∧
    B21lost.stateAt { x := 1, y := 0 } =
      some { state := TileVisibility.flag, isOpen := true,
             wasClicked := false } ∧
    B21lost.emptyCount = 1 ∧ B21lost.openEmptyCount = 1 ∧
    B21lost.tilesLeftToOpenToWin = 1 ∧
    ¬ B21lost.tilesLeftToOpenToWin =
      (B21lost.emptyCount : Int) - (B21lost.openEmptyCount : Int) := by
  decide

/-- Claim C5 (amended): in every reachable board the counter starts at
`width * height - bombCount`, never goes negative, and — as long as the
board has not transitioned to `lost` — equals the number of empty tiles
not yet open (so outside the loss reveal it is decremented exactly once
per empty tile at the moment that tile first becomes open, and never for
bombs or already-open tiles); after a loss the accounting can break
because the loss reveal opens misflagged empty tiles without touching
the counter. -/
theorem C5_counter_invariant (b : MinesweeperBoard) (h : Reachable b) :
    (∀ w hgt arr, mkBoard w hgt arr = Except.ok b →
      b.tilesLeftToOpenToWin =
        ((w * hgt : Nat) : Int) - (b.bombCount : Int)) ∧
    0 ≤ b.tilesLeftToOpenToWin ∧
    (b.boardState ≠ BoardState.lost →
      b.tilesLeftToOpenToWin =
        (b.emptyCount : Int) - (b.openEmptyCount : Int)) := by
  obtain ⟨⟨hwf, h0, hc⟩, _⟩ := reachable_inv_consistent b h
  refine ⟨?_, h0, hc⟩
  intro w hgt arr hok
  obtain ⟨_, _, _, _, hBC, _, _, _, hCtr, _⟩ :=
    mkBoard_ok_spec w hgt arr b hok
  rw [hCtr, hBC]

/-- Concrete instance of C5 (amended) on the freshly constructed 2-by-1
board. -/
theorem C5_counter_invariant_witness : 0 ≤ B21.tilesLeftToOpenToWin :=
  (C5_counter_invariant B21
    (Reachable.init 2 1 [true, false] B21 (by decide))).2.1

end MinesweeperBoard

namespace MinesweeperBoard

/-- Claim C6: for a well-formed board, opening an in-bounds tile always
succeeds (the flood fill terminates and runs to completion — the result
is independent of the recursion fuel once the fuel exceeds the number of
closed tiles), and invoking the open primitive on an already-open cell
is a no-op returning the board unchanged with no notification. -/
theorem C6_flood_terminates (b : MinesweeperBoard) (p : Point) (w : Bool)
    (hwf : b.WF) :
    (b.tileData.isInBounds p = true →
      ∃ b2 ev, b.setTileOpen p w = Except.ok (b2, ev)) ∧
    (∀ f1 f2, b.closedCount < f1 → b.closedCount < f2 →
      setTileOpenF f1 b p w = setTileOpenF f2 b p w) ∧
    (∀ ts td, b.stateAt p = some ts → b.dataAt p = some td →
      ts.isOpen = true → b.setTileOpen p w = Except.ok (b, [])) :=
  ⟨fun hb => setTileOpen_ok b p w hwf hb,
   fun f1 f2 h1 h2 => setTileOpenF_stable f1 f2 b p w hwf h1 h2,
   fun ts td hts htd hbo =>
     setTileOpenF_open_noop (b.tileState.array.length + 1) b p w ts td
       (Nat.succ_pos _) hts htd hbo⟩

/-- Concrete instance of C6: the flood fill on the 2-by-1 board computes
the same result with fuel 5 and fuel 7. -/
theorem C6_flood_terminates_witness :
    setTileOpenF 5 B21 { x := 1, y := 0 } true =
      setTileOpenF 7 B21 { x := 1, y := 0 } true :=
  (C6_flood_terminates B21 { x := 1, y := 0 } true (by decide)).2.1 5 7
    (by decide) (by decide)

/-- Claim C7: `won` and `lost` are terminal — on a board in either
state, `clickTile` and `changeTileState` return the board unchanged with
no notifications. -/
theorem C7_terminal_states (b : MinesweeperBoard) (p : Point)
    (h : b.boardState = BoardState.won ∨ b.boardState = BoardState.lost) :
    b.clickTile p = Except.ok (b, []) ∧
    b.changeTileState p = Except.ok (b, []) :=
  ⟨clickTile_terminal b p h, changeTileState_terminal b p h⟩

/-- Concrete instance of C7 on the won 2-by-1 board. -/
theorem C7_terminal_states_witness :
    B21won.clickTile { x := 0, y := 0 } = Except.ok (B21won, []) ∧
    B21won.changeTileState { x := 0, y := 0 } =
      Except.ok (B21won, []) :=
  C7_terminal_states B21won { x := 0, y := 0 } (Or.inl (by decide))

/-- Claim C8: for positive dimensions and a requested bomb count
strictly between 0 and `width * height`, and for every sequence of
random draws, `generate` succeeds, and any board it returns has
`bombCount` equal to the request, exactly that many bomb cells, and
every empty cell's stored neighbor count equal to the true number of
in-bounds eight-way bomb neighbors. -/
theorem C8_generate (w h bombs : Nat) (choice : Nat → Nat)
    (b : MinesweeperBoard) (hw : 0 < w) (hh : 0 < h) (hb : 0 < bombs)
    (hbs : bombs < w * h) :
    (∃ b2, generate w h bombs choice = Except.ok b2) ∧
    (generate w h bombs choice = Except.ok b →
      b.bombCount = bombs ∧ b.bombTileCount = bombs ∧
      (∀ p ∈ b.tileData.points, ∀ k,
        b.dataAt p = some (TileData.empty k) →
          k = b.bombNeighborCountAt p)) := by
  obtain ⟨b2, hok2, hbc, hbt, hcons, _⟩ :=
    generate_spec w h bombs choice hw hh hb hbs
  refine ⟨⟨b2, hok2⟩, ?_⟩
  intro hok
  rw [hok2] at hok
  injection hok with hbe
  subst hbe
  exact ⟨hbc, hbt, hcons⟩

/-- Concrete instance of C8: a generated 2-by-2 board with one requested
bomb has `bombCount` 1. -/
theorem C8_generate_witness : G22.bombCount = 1 :=
  ((C8_generate 2 2 1 (fun _ => 0) G22 (by decide) (by decide)
    (by decide) (by decide)).2 (by decide)).1

/-- Claim C9: while the board is `active` (or `not_started`, which first
becomes `active`), toggling the flag of an open tile changes nothing
beyond that activation and emits no notification, and toggling a closed
tile flips its visibility between default and flag, emitting exactly one
notification for that point. -/
theorem C9_toggle_flag (b : MinesweeperBoard) (p : Point) (ts : TileState)
    (hst : b.boardState = BoardState.active ∨
      b.boardState = BoardState.not_started)
    (hts : b.stateAt p = some ts) :
    (ts.isOpen = true → b.changeTileState p =
      Except.ok (b.setBoardState BoardState.active, [])) ∧
    (ts.isOpen = false → b.changeTileState p =
      Except.ok ((b.setBoardState BoardState.active).setTS p
        { ts with state := match ts.state with
            | TileVisibility.default => TileVisibility.flag
            | TileVisibility.flag => TileVisibility.default }, [p])) := by
  have h := changeTileState_spec b p ts hst hts
  constructor
  · intro ho
    rw [h, if_pos ho]
  · intro ho
    rw [h, if_neg (by rw [ho]; intro hcon; cases hcon)]

/-- Concrete instance of C9: flagging the closed bomb tile of the fresh
2-by-1 board flips it to flagged with one notification. -/
theorem C9_toggle_flag_witness :
    B21.changeTileState { x := 0, y := 0 } =
      Except.ok ((B21.setBoardState BoardState.active).setTS
        { x := 0, y := 0 }
        { state := TileVisibility.flag, isOpen := false,
          wasClicked := false }, [{ x := 0, y := 0 }]) :=
  (C9_toggle_flag B21 { x := 0, y := 0 } initTileState
    (Or.inr (by decide)) (by decide)).2 (by decide)

/-- Claim C10: in every reachable board, a tile whose stored neighbor
count is zero has no in-bounds bomb neighbor, and consequently the flood
fill started by `setTileOpen` at a point never changes the state of any
bomb tile other than the point it was directly invoked on — a bomb can
only be opened by a direct click, the chord loop, or the loss
reveal. -/
theorem C10_no_bomb_cascade (b : MinesweeperBoard) (h : Reachable b) :
    (∀ p, p ∈ b.tileData.points → b.dataAt p = some (TileData.empty 0) →
      ∀ r ∈ (eightWayNeighbors p).filter
          (fun q => b.tileData.isInBounds q),
        ¬ (b.dataAt r = some TileData.bomb)) ∧
    (∀ p w b2 ev q, b.setTileOpen p w = Except.ok (b2, ev) → q ≠ p →
      b.dataAt q = some TileData.bomb → b2.stateAt q = b.stateAt q) := by
  obtain ⟨⟨hwf, _, _⟩, hcons⟩ := reachable_inv_consistent b h
  exact ⟨fun p hp hd => zero_count_no_bomb_neighbors b hcons p hp hd,
    fun p w b2 ev q hok hqp hq =>
      setTileOpen_bomb_preserve b p w b2 ev hok hwf hcons q hqp hq⟩

/-- Concrete instance of C10: opening the corner of the 3-by-3 board
leaves the state of the center bomb untouched. -/
theorem C10_no_bomb_cascade_witness :
    B33open.1.stateAt { x := 1, y := 1 } =
      B33.stateAt { x := 1, y := 1 } :=
  (C10_no_bomb_cascade B33 (Reachable.init 3 3
      [false, false, false, false, true, false, false, false, false] B33
      (by decide))).2
    { x := 0, y := 0 } true B33open.1 B33open.2 { x := 1, y := 1 }
    (by decide) (by decide) (by decide)

end MinesweeperBoard
